import Mathlib

/-!
# Verification of the Foxus Focus & Categorization Engine

Shallow embedding of the core logic of the `vtemian/foxus` repository:
the rule-based categorizer (`src-tauri/src/categorizer/mod.rs`), the
rule/category data model (`src-tauri/src/models/rule.rs`,
`src-tauri/src/models/category.rs`), the focus-session ledger
(`src/tauri/src/models/focus_session.rs`,
`src/tauri/src/models/focus_schedule.rs`), the focus manager
(`src-tauri/src/focus/mod.rs`) and the activity sampler
(`src-tauri/src/tracker/mod.rs`).

Strings are modelled as `List Char`; Rust byte positions become character
positions (all reasoning here is position-arithmetic independent).  The
SQLite tables become Lean lists; `last_insert_rowid` becomes an explicit
`nextId` counter.  Wall-clock readings (`SystemTime`, `Instant`) become
explicit numeric parameters passed to each operation: `Instant` is a `Nat`
(monotone clock, `duration_since` saturates at zero exactly like `Nat`
subtraction), Unix timestamps are `Int`.  Rust `i32`/`i64` arithmetic in
the budget accounting is modelled on `Int` (the intended, non-wrapping
semantics; debug builds panic on overflow).
-/

namespace Foxus

/-! ## Lowercasing and substring search (helpers for `Categorizer::pattern_matches`) -/

/-- `str::to_lowercase`, modelled character-wise with `Char.toLower`
(the Rust special multi-char casings do not arise for the patterns at hand). -/
def lower (s : List Char) : List Char := s.map Char.toLower

/-- `str::find(&str)`: index of the leftmost occurrence of `pat` in `hay`. -/
def findSub (hay pat : List Char) : Option Nat :=
  match hay with
  | [] => if pat = [] then some 0 else none
  | _ :: t => if pat.isPrefixOf hay then some 0 else (findSub t pat).map (· + 1)

/-- The segment loop of `Categorizer::pattern_matches`: empty segments are
skipped; each non-empty segment must be found in the remaining text, which is
then advanced past the match (Rust keeps an absolute `pos` cursor into the
full text; dropping the consumed prefix is the same computation). -/
def matchSegs : List (List Char) → List Char → Bool
  | [], _ => true
  | p :: ps, t =>
    if p = [] then matchSegs ps t
    else
      match findSub t p with
      | some i => matchSegs ps (t.drop (i + p.length))
      | none => false

/-- `Categorizer::pattern_matches`: lowercase both sides; a pattern with `*`
is split on `*` and matched segment-by-segment, otherwise a plain substring
test (`str::contains`, here `findSub … |>.isSome`). -/
def pattern_matches (pattern text : String) : Bool :=
  let pattern_lower := lower pattern.data
  let text_lower := lower text.data
  if pattern_lower.contains '*' then
    matchSegs (pattern_lower.splitOn '*') text_lower
  else
    (findSub text_lower pattern_lower).isSome

/-- Specification-side predicate for glob matching (the words of the spec):
each listed segment occurs in the text, in order, as disjoint substrings. -/
def SegsOccurInOrder : List (List Char) → List Char → Prop
  | [], _ => True
  | p :: ps, t => ∃ i, p.isPrefixOf (t.drop i) = true ∧ SegsOccurInOrder ps (t.drop (i + p.length))

/-! ### Properties of `findSub` -/

theorem findSub_some_prefix {hay pat : List Char} {i : Nat} (h : findSub hay pat = some i) :
    pat.isPrefixOf (hay.drop i) = true := by
  induction hay generalizing i with
  | nil =>
    simp only [findSub] at h
    split at h
    · rename_i hp
      cases h
      simp [hp]
    · cases h
  | cons a t ih =>
    simp only [findSub] at h
    split at h
    · rename_i hp
      cases h
      simpa using hp
    · match hfind : findSub t pat with
      | none => rw [hfind] at h; cases h
      | some j =>
        rw [hfind] at h
        simp only [Option.map_some'] at h
        cases h
        simpa using ih hfind

theorem findSub_minimal {hay pat : List Char} {i : Nat} (h : findSub hay pat = some i)
    {j : Nat} (hj : pat.isPrefixOf (hay.drop j) = true) : i ≤ j := by
  induction hay generalizing i j with
  | nil =>
    simp only [findSub] at h
    split at h
    · cases h; exact Nat.zero_le _
    · cases h
  | cons a t ih =>
    simp only [findSub] at h
    split at h
    · cases h; exact Nat.zero_le _
    · rename_i hnp
      match hfind : findSub t pat with
      | none => rw [hfind] at h; cases h
      | some k =>
        rw [hfind] at h
        simp only [Option.map_some'] at h
        cases h
        cases j with
        | zero => simp only [List.drop_zero] at hj; exact absurd hj hnp
        | succ j' =>
          have := ih hfind (j := j') (by simpa using hj)
          omega

theorem findSub_none {hay pat : List Char} (h : findSub hay pat = none)
    (j : Nat) : ¬ pat.isPrefixOf (hay.drop j) = true := by
  induction hay generalizing j with
  | nil =>
    simp only [findSub] at h
    split at h
    · cases h
    · rename_i hp
      intro hc
      simp only [List.drop_nil] at hc
      exact hp (by simpa [List.isPrefixOf_iff_prefix, List.prefix_nil] using hc)
  | cons a t ih =>
    simp only [findSub] at h
    split at h
    · cases h
    · rename_i hnp
      match hfind : findSub t pat with
      | none =>
        intro hc
        cases j with
        | zero => exact hnp (by simpa using hc)
        | succ j' => exact ih hfind j' (by simpa using hc)
      | some k => rw [hfind] at h; cases h

/-- `findSub` succeeds iff the needle occurs somewhere. -/
theorem findSub_isSome_iff {hay pat : List Char} :
    (findSub hay pat).isSome = true ↔ ∃ j, pat.isPrefixOf (hay.drop j) = true := by
  constructor
  · intro h
    match hfind : findSub hay pat with
    | none => rw [hfind] at h; cases h
    | some i => exact ⟨i, findSub_some_prefix hfind⟩
  · rintro ⟨j, hj⟩
    match hfind : findSub hay pat with
    | none => exact absurd hj (findSub_none hfind j)
    | some i => rfl

/-! ### Soundness and completeness of the segment matcher -/

theorem segsOccur_of_drop {ps : List (List Char)} {t : List Char} {k : Nat}
    (h : SegsOccurInOrder ps (t.drop k)) : SegsOccurInOrder ps t := by
  cases ps with
  | nil => trivial
  | cons p ps =>
    obtain ⟨i, hi, hrest⟩ := h
    refine ⟨k + i, ?_, ?_⟩
    · rwa [List.drop_drop] at hi
    · rw [List.drop_drop] at hrest
      have harith : k + (i + p.length) = k + i + p.length := by omega
      rwa [harith] at hrest

theorem matchSegs_sound {ps : List (List Char)} {t : List Char}
    (h : matchSegs ps t = true) : SegsOccurInOrder ps t := by
  induction ps generalizing t with
  | nil => trivial
  | cons p ps ih =>
    simp only [matchSegs] at h
    split at h
    · rename_i hp
      subst hp
      exact ⟨0, by simp, by simpa using ih h⟩
    · match hfind : findSub t p with
      | none => simp [hfind] at h
      | some i =>
        simp only [hfind] at h
        exact ⟨i, findSub_some_prefix hfind, ih h⟩

theorem matchSegs_complete {ps : List (List Char)} {t : List Char}
    (h : SegsOccurInOrder ps t) : matchSegs ps t = true := by
  induction ps generalizing t with
  | nil => rfl
  | cons p ps ih =>
    obtain ⟨i, hi, hrest⟩ := h
    simp only [matchSegs]
    split
    · rename_i hp
      subst hp
      exact ih (segsOccur_of_drop hrest)
    · match hfind : findSub t p with
      | none => exact absurd hi (findSub_none hfind i)
      | some j =>
        have hji : j ≤ i := findSub_minimal hfind hi
        simp only [hfind]
        apply ih
        apply segsOccur_of_drop (k := i + p.length - (j + p.length))
        rw [List.drop_drop]
        have harith : j + p.length + (i + p.length - (j + p.length)) = i + p.length := by omega
        rwa [harith]

theorem matchSegs_iff {ps : List (List Char)} {t : List Char} :
    matchSegs ps t = true ↔ SegsOccurInOrder ps t :=
  ⟨matchSegs_sound, matchSegs_complete⟩

/-- `matchSegs` ignores empty segments, so it agrees with the matcher run on
only the non-empty segments. -/
theorem matchSegs_filter_ne_nil (ps : List (List Char)) (t : List Char) :
    matchSegs ps t = matchSegs (ps.filter (fun p => !p.isEmpty)) t := by
  induction ps generalizing t with
  | nil => rfl
  | cons p ps ih =>
    by_cases hp : p = []
    · subst hp
      exact ih t
    · have hne : (!p.isEmpty) = true := by
        cases p with
        | nil => exact absurd rfl hp
        | cons a l => rfl
      rw [List.filter_cons, if_pos hne]
      cases hfind : findSub t p with
      | some i =>
        simp only [matchSegs, if_neg hp, hfind]
        exact ih _
      | none => simp only [matchSegs, if_neg hp, hfind]

/-! ## Rules and categories (`models/rule.rs`, `models/category.rs`) -/

/-- `MatchType` from `models/rule.rs`. -/
inductive MatchType where
  | app
  | domain
  | title
deriving DecidableEq, Repr

/-- `MatchType::as_str`. -/
def MatchType.as_str : MatchType → String
  | .app => "app"
  | .domain => "domain"
  | .title => "title"

/-- `MatchType::from_str`. -/
def MatchType.from_str : String → Option MatchType
  | "app" => some .app
  | "domain" => some .domain
  | "title" => some .title
  | _ => none

/-- `Rule` from `models/rule.rs` (row as stored in the `rules` table). -/
structure Rule where
  id : Nat
  pattern : String
  match_type : MatchType
  category_id : Int
  priority : Int
deriving DecidableEq, Repr

/-- `Category` from `models/category.rs` (row of the `categories` table;
`productivity` is -1/0/1). -/
structure Category where
  id : Int
  name : String
  productivity : Int
deriving DecidableEq, Repr

/-- Descending-priority order used by `Rule::find_all`
(`ORDER BY priority DESC`; ties in whatever stable order the store yields). -/
def ruleOrder (a b : Rule) : Prop := b.priority ≤ a.priority

instance : DecidableRel ruleOrder := fun a b => by
  unfold ruleOrder; infer_instance

instance : IsTotal Rule ruleOrder :=
  ⟨fun a b => le_total b.priority a.priority⟩

instance : IsTrans Rule ruleOrder :=
  ⟨fun _ _ _ h1 h2 => le_trans h2 h1⟩

/-- `Rule::find_all`: the `rules` table sorted by priority, highest first. -/
def Rule.find_all (tbl : List Rule) : List Rule :=
  tbl.insertionSort ruleOrder

/-! ## Categorizer (`categorizer/mod.rs`) -/

/-- The in-memory index built by `Categorizer::new`. -/
structure Categorizer where
  rules : List (Rule × Category)
  default_category_id : Int
deriving DecidableEq, Repr

/-- `Categorizer::new`: load all rules (priority-sorted) and categories, keep
only rules whose category still exists, and compute the fallback category id
("Uncategorized", else `1`). -/
def Categorizer.new (ruleTbl : List Rule) (catTbl : List Category) : Categorizer :=
  let rules := Rule.find_all ruleTbl
  let rules_with_categories := rules.filterMap fun rule =>
    (catTbl.find? fun c => c.id == rule.category_id).map fun c => (rule, c)
  let default_category_id :=
    ((catTbl.find? fun c => c.name == "Uncategorized").map Category.id).getD 1
  ⟨rules_with_categories, default_category_id⟩

/-- The per-rule test performed inside the `categorize_app` loop:
App rules run against the app name, Title rules against the window title
(if supplied), Domain rules never apply here. -/
def Rule.matches_app (r : Rule) (app_name : String) (window_title : Option String) : Bool :=
  match r.match_type with
  | .app => pattern_matches r.pattern app_name
  | .title => (window_title.map fun t => pattern_matches r.pattern t).getD false
  | .domain => false

/-- The per-rule test performed inside the `categorize_url` loop. -/
def Rule.matches_url (r : Rule) (domain : String) : Bool :=
  r.match_type == .domain && pattern_matches r.pattern domain

/-- `Categorizer::categorize_app`: first matching rule wins, else fallback. -/
def Categorizer.categorize_app (c : Categorizer) (app_name : String)
    (window_title : Option String) : Int :=
  match c.rules.find? (fun rc => rc.1.matches_app app_name window_title) with
  | some rc => rc.1.category_id
  | none => c.default_category_id

/-- `Categorizer::categorize_url`: first matching Domain rule wins, else fallback. -/
def Categorizer.categorize_url (c : Categorizer) (domain : String) : Int :=
  match c.rules.find? (fun rc => rc.1.matches_url domain) with
  | some rc => rc.1.category_id
  | none => c.default_category_id

/-! ### Structure of the categorizer index -/

/-- The rule components of the index form a sublist of the priority-sorted
rule list. -/
theorem categorizer_rules_fst_sublist (ruleTbl : List Rule) (catTbl : List Category) :
    ((Categorizer.new ruleTbl catTbl).rules.map Prod.fst).Sublist (Rule.find_all ruleTbl) := by
  show List.Sublist ((List.filterMap _ (Rule.find_all ruleTbl)).map Prod.fst) (Rule.find_all ruleTbl)
  generalize Rule.find_all ruleTbl = l
  induction l with
  | nil => simp
  | cons r l ih =>
    rw [List.filterMap_cons]
    cases hfind : List.find? (fun c => c.id == r.category_id) catTbl with
    | none => exact ih.trans (List.sublist_cons_self r l)
    | some c => simpa using List.Sublist.cons₂ r ih

/-- Membership in the categorizer index, in terms of the raw tables. -/
theorem categorizer_rules_mem {ruleTbl : List Rule} {catTbl : List Category}
    {rc : Rule × Category} (h : rc ∈ (Categorizer.new ruleTbl catTbl).rules) :
    rc.1 ∈ ruleTbl ∧ catTbl.find? (fun c => c.id == rc.1.category_id) = some rc.2 := by
  obtain ⟨r, hr, hmap⟩ := List.mem_filterMap.mp h
  cases hfind : List.find? (fun c => c.id == r.category_id) catTbl with
  | none => rw [hfind] at hmap; cases hmap
  | some c =>
    rw [hfind] at hmap
    simp only [Option.map_some'] at hmap
    cases hmap
    refine ⟨?_, hfind⟩
    exact (List.Perm.mem_iff (List.perm_insertionSort ruleOrder ruleTbl)).mp hr

/-- A rule of the table whose category exists appears in the index. -/
theorem categorizer_rules_mem_of {ruleTbl : List Rule} {catTbl : List Category}
    {r : Rule} (hr : r ∈ ruleTbl) {c : Category}
    (hc : catTbl.find? (fun c => c.id == r.category_id) = some c) :
    (r, c) ∈ (Categorizer.new ruleTbl catTbl).rules := by
  apply List.mem_filterMap.mpr
  refine ⟨r, ?_, by rw [hc]; rfl⟩
  exact (List.Perm.mem_iff (List.perm_insertionSort ruleOrder ruleTbl)).mpr hr

/-- The index is sorted by descending rule priority. -/
theorem categorizer_rules_sorted (ruleTbl : List Rule) (catTbl : List Category) :
    ((Categorizer.new ruleTbl catTbl).rules).Pairwise
      (fun a b => b.1.priority ≤ a.1.priority) := by
  have hsorted : (Rule.find_all ruleTbl).Pairwise ruleOrder :=
    List.sorted_insertionSort ruleOrder ruleTbl
  have hsub := categorizer_rules_fst_sublist ruleTbl catTbl
  have hpw : (((Categorizer.new ruleTbl catTbl).rules.map Prod.fst)).Pairwise ruleOrder :=
    hsorted.sublist hsub
  rw [List.pairwise_map] at hpw
  exact hpw.imp fun h => h

/-- In a descending-sorted list, the first element satisfying a predicate has
maximal priority among all elements satisfying it. -/
theorem find?_sorted_max {α : Type} (priority : α → Int) {l : List α}
    (hs : l.Pairwise (fun a b => priority b ≤ priority a))
    {q : α → Bool} {x : α} (hfind : l.find? q = some x) :
    ∀ y ∈ l, q y = true → priority y ≤ priority x := by
  induction l with
  | nil => cases hfind
  | cons a t ih =>
    rw [List.pairwise_cons] at hs
    rw [List.find?_cons] at hfind
    split at hfind
    · cases hfind
      intro y hy _
      rcases List.mem_cons.mp hy with rfl | hyt
      · exact le_refl _
      · exact hs.1 y hyt
    · rename_i hqa
      intro y hy hq
      rcases List.mem_cons.mp hy with rfl | hyt
      · exact absurd hq (by simpa using hqa)
      · exact ih hs.2 hfind y hyt hq

/-! ## Focus sessions (`src/tauri/src/models/focus_session.rs`) -/

/-- `FocusSession`: `id` is `none` until the row is saved
(`last_insert_rowid` becomes an explicit counter below). -/
structure FocusSession where
  id : Option Nat
  started_at : Int
  ended_at : Option Int
  scheduled : Bool
  distraction_budget : Int
  distraction_used : Int
deriving DecidableEq, Repr

/-- `FocusSession::new` (the `current_timestamp()` reading is the explicit
`now` argument). -/
def FocusSession.new (now : Int) (distraction_budget_secs : Int) (scheduled : Bool) :
    FocusSession :=
  ⟨none, now, none, scheduled, distraction_budget_secs, 0⟩

/-- `FocusSession::budget_remaining`: `(budget - used).max(0)`. -/
def FocusSession.budget_remaining (s : FocusSession) : Int :=
  max (s.distraction_budget - s.distraction_used) 0

/-- `FocusSession::is_budget_exhausted`. -/
def FocusSession.is_budget_exhausted (s : FocusSession) : Bool :=
  s.distraction_budget ≤ s.distraction_used

/-! ## Focus schedules (`src/tauri/src/models/focus_schedule.rs`) -/

/-- `FocusSchedule`: days are kept as the raw CSV string, times as raw
`"HH:MM"` strings, exactly as stored. -/
structure FocusSchedule where
  id : Option Nat
  days_of_week : String
  start_time : String
  end_time : String
  distraction_budget : Int
  enabled : Bool
deriving DecidableEq, Repr

/-- `str::trim` (leading/trailing whitespace removed). -/
def trimChars (cs : List Char) : List Char :=
  ((cs.dropWhile Char.isWhitespace).reverse.dropWhile Char.isWhitespace).reverse

/-- `str::parse::<u32>()` on a trimmed fragment: an optional `+` sign followed
by at least one digit (overflow rejection is immaterial for day numbers). -/
def parseU32 (cs : List Char) : Option Nat :=
  let digits := match cs with
    | '+' :: rest => rest
    | _ => cs
  if digits ≠ [] ∧ digits.all Char.isDigit then
    some (digits.foldl (fun n c => n * 10 + (c.toNat - 48)) 0)
  else
    none

/-- `FocusSchedule::applies_to_day`: split the CSV on `,`, trim and parse each
fragment, and test membership of `day`. -/
def FocusSchedule.applies_to_day (s : FocusSchedule) (day : Nat) : Bool :=
  ((s.days_of_week.data.splitOn ',').filterMap fun part => parseU32 (trimChars part)).any
    (fun d => d == day)

/-- The byte-wise lexicographic order Rust uses to compare `&str` values
(character-wise here; the two agree on the ASCII `"HH:MM"` strings being
compared). -/
def lexLt : List Char → List Char → Bool
  | [], [] => false
  | [], _ :: _ => true
  | _ :: _, [] => false
  | a :: as, b :: bs => if a < b then true else if b < a then false else lexLt as bs

/-- `a <= b` on Rust strings (total order: the negation of `b < a`). -/
def lexLe (a b : List Char) : Bool := !(lexLt b a)

/-- `FocusSchedule::is_time_in_range`: half-open `[start_time, end_time)`
under string comparison. -/
def FocusSchedule.is_time_in_range (s : FocusSchedule) (time : String) : Bool :=
  lexLe s.start_time.data time.data && lexLt time.data s.end_time.data

/-- `FocusSchedule::is_active_at`. -/
def FocusSchedule.is_active_at (s : FocusSchedule) (day : Nat) (time : String) : Bool :=
  s.enabled && s.applies_to_day day && s.is_time_in_range time

/-- Ascending `start_time` order used by `FocusSchedule::find_enabled`
(`ORDER BY start_time`, SQLite TEXT ordering = memcmp). -/
def scheduleOrder (a b : FocusSchedule) : Prop :=
  lexLe a.start_time.data b.start_time.data = true

instance : DecidableRel scheduleOrder := fun a b => by
  unfold scheduleOrder; infer_instance

/-- `FocusSchedule::find_enabled`: enabled schedules ordered by start time. -/
def FocusSchedule.find_enabled (tbl : List FocusSchedule) : List FocusSchedule :=
  (tbl.filter fun s => s.enabled).insertionSort scheduleOrder

/-! ## The persistent store -/

/-- The slice of the SQLite database the focus manager touches.  `sessions`
is the `focus_sessions` table (in rowid order), `nextId` the next value of
`last_insert_rowid() + 1`. -/
structure Db where
  sessions : List FocusSession
  nextId : Nat
  rules : List Rule
  categories : List Category
  schedules : List FocusSchedule
deriving DecidableEq, Repr

/-- `FocusSession::save`: `INSERT` plus `last_insert_rowid`. -/
def Db.saveSession (db : Db) (s : FocusSession) : FocusSession × Db :=
  let s' := {s with id := some db.nextId}
  (s', {db with sessions := db.sessions ++ [s'], nextId := db.nextId + 1})

/-- `FocusSession::find_active`:
`WHERE ended_at IS NULL ORDER BY started_at DESC LIMIT 1` — the open
session with the greatest `started_at`. -/
def FocusSession.find_active (sessions : List FocusSession) : Option FocusSession :=
  (sessions.filter fun s => s.ended_at == none).foldl
    (fun best s =>
      match best with
      | none => some s
      | some b => if b.started_at < s.started_at then some s else some b)
    none

/-- `FocusSession::end`: fails (`InvalidParameterName`) on an unsaved session,
otherwise stamps `ended_at` both on the in-memory value and on the row. -/
def FocusSession.end_ (s : FocusSession) (db : Db) (now : Int) :
    Option (FocusSession × Db) :=
  s.id.map fun i =>
    ({s with ended_at := some now},
     {db with sessions := db.sessions.map fun r =>
        if r.id == some i then {r with ended_at := some now} else r})

/-- `FocusSession::add_distraction_time`: fails on an unsaved session,
otherwise adds `secs` to `distraction_used` and persists the new value. -/
def FocusSession.add_distraction_time (s : FocusSession) (db : Db) (secs : Int) :
    Option (FocusSession × Db) :=
  s.id.map fun i =>
    let s' := {s with distraction_used := s.distraction_used + secs}
    (s', {db with sessions := db.sessions.map fun r =>
        if r.id == some i then {r with distraction_used := s'.distraction_used} else r})

/-! ## Focus manager (`src-tauri/src/focus/mod.rs`) -/

/-- `DISTRACTION_TIME_RATE_LIMIT` (25 seconds). -/
def DISTRACTION_TIME_RATE_LIMIT : Nat := 25

/-- `FocusManager`'s mutable state: the shared database handle plus the
rate-limit timestamp (`Instant`s are `Nat`s on a monotone clock). -/
structure FocusManager where
  db : Db
  last_distraction_request : Option Nat
deriving DecidableEq, Repr

/-- `FocusState` returned by `FocusManager::get_state`. -/
structure FocusState where
  active : Bool
  budget_remaining : Int
  blocked_domains : List String
  session_duration_secs : Option Int
deriving DecidableEq, Repr

/-- `FocusManager::start_session`: end any existing active session, then
insert a new manual session.  `none` models a propagated store error. -/
def FocusManager.start_session (db : Db) (now : Int) (distraction_budget_secs : Int) :
    Option (FocusSession × Db) :=
  match FocusSession.find_active db.sessions with
  | some existing =>
    match existing.end_ db now with
    | none => none
    | some (_, db1) => some (db1.saveSession (FocusSession.new now distraction_budget_secs false))
  | none => some (db.saveSession (FocusSession.new now distraction_budget_secs false))

/-- `FocusManager::start_scheduled_session`: like `start_session` but the new
session is tagged `scheduled = true`. -/
def FocusManager.start_scheduled_session (db : Db) (now : Int)
    (distraction_budget_secs : Int) : Option (FocusSession × Db) :=
  match FocusSession.find_active db.sessions with
  | some existing =>
    match existing.end_ db now with
    | none => none
    | some (_, db1) => some (db1.saveSession (FocusSession.new now distraction_budget_secs true))
  | none => some (db.saveSession (FocusSession.new now distraction_budget_secs true))

/-- `FocusManager::end_session`: end the active session if any. -/
def FocusManager.end_session (db : Db) (now : Int) :
    Option (Option FocusSession × Db) :=
  match FocusSession.find_active db.sessions with
  | some session =>
    match session.end_ db now with
    | none => none
    | some (s', db') => some (some s', db')
  | none => some (none, db)

/-- `FocusManager::get_blocked_domains`: patterns of Domain-kind rules whose
joined category has `productivity < 0`. -/
def FocusManager.get_blocked_domains (rules : List Rule) (categories : List Category) :
    List String :=
  (rules.filter fun r =>
      r.match_type == MatchType.domain &&
      categories.any fun c => c.id == r.category_id && c.productivity < 0).map
    Rule.pattern

/-- `FocusManager::get_state`. -/
def FocusManager.get_state (db : Db) (now : Int) : FocusState :=
  let blocked := FocusManager.get_blocked_domains db.rules db.categories
  match FocusSession.find_active db.sessions with
  | some s => ⟨true, s.budget_remaining, blocked, some (max (now - s.started_at) 0)⟩
  | none => ⟨false, 0, blocked, none⟩

/-- The rate-limit test at the top of `use_distraction_time`:
`Instant::duration_since` saturates at zero, exactly like `Nat` subtraction. -/
def rateLimited (last : Option Nat) (nowInstant : Nat) : Bool :=
  match last with
  | some l => nowInstant - l < DISTRACTION_TIME_RATE_LIMIT
  | none => false

/-- `FocusManager::use_distraction_time`: a rate-limited call answers with the
current remaining budget and changes nothing; otherwise the rate-limit
timestamp is recorded and, if a session is active, `secs` are deducted. -/
def FocusManager.use_distraction_time (m : FocusManager) (nowInstant : Nat) (secs : Int) :
    Option (Option Int × FocusManager) :=
  if rateLimited m.last_distraction_request nowInstant then
    match FocusSession.find_active m.db.sessions with
    | some session => some (some session.budget_remaining, m)
    | none => some (none, m)
  else
    let m1 : FocusManager := {m with last_distraction_request := some nowInstant}
    match FocusSession.find_active m1.db.sessions with
    | some session =>
      match session.add_distraction_time m1.db secs with
      | none => none
      | some (s', db') => some (some s'.budget_remaining, {m1 with db := db'})
    | none => some (none, m1)

/-- The ladder `domain.ends_with(d) || domain == d.trim_start_matches("*.")`
from `is_domain_blocked`; `trim_start_matches` strips every leading `"*."`. -/
def trimStarDot : List Char → List Char
  | '*' :: '.' :: rest => trimStarDot rest
  | l => l

/-- `FocusManager::is_domain_blocked`. -/
def FocusManager.is_domain_blocked (db : Db) (now : Int) (domain : String) : Bool :=
  let state := FocusManager.get_state db now
  if !state.active then false
  else state.blocked_domains.any fun d =>
    d.data.isSuffixOf domain.data || domain.data == trimStarDot d.data

/-- `FocusManager::find_active_schedule`: the first enabled schedule (in
start-time order) active at the given day and time. -/
def FocusManager.find_active_schedule (tbl : List FocusSchedule) (day : Nat) (time : String) :
    Option FocusSchedule :=
  (FocusSchedule.find_enabled tbl).find? fun s => s.is_active_at day time

/-- `FocusManager::check_schedules`: the reconciliation step.  The current
day/time reading of `get_current_day_and_time()` and the `current_timestamp()`
used when sessions are created/ended are the explicit `day`, `time`, `now`. -/
def FocusManager.check_schedules (db : Db) (day : Nat) (time : String) (now : Int) :
    Option Db :=
  match FocusManager.find_active_schedule db.schedules day time,
        FocusSession.find_active db.sessions with
  | some schedule, none =>
    some (db.saveSession (FocusSession.new now schedule.distraction_budget true)).2
  | none, some session =>
    if session.scheduled then
      match session.end_ db now with
      | none => none
      | some (_, db1) => some db1
    else some db
  | some schedule, some session =>
    if session.scheduled then
      if 60 < (schedule.distraction_budget - session.distraction_budget).natAbs then
        match session.end_ db now with
        | none => none
        | some (_, db1) =>
          some (db1.saveSession (FocusSession.new now schedule.distraction_budget true)).2
      else some db
    else some db
  | none, none => some db

/-- Iterated reconciliation (`check_schedules` called from a periodic timer). -/
def FocusManager.checkIter (day : Nat) (time : String) (now : Int) :
    Nat → Db → Option Db
  | 0, db => some db
  | n + 1, db => (FocusManager.check_schedules db day time now).bind
      (FocusManager.checkIter day time now n)

/-! ## Activity sampler (`tracker/mod.rs`, `models/activity.rs`,
`platform/types.rs`) -/

/-- `ActiveWindow` from `platform/types.rs`. -/
structure ActiveWindow where
  app_name : String
  window_title : String
  bundle_id : Option String
deriving DecidableEq, Repr

/-- `TrackerConfig` (defaults: poll every 5 s, idle threshold 120 s). -/
structure TrackerConfig where
  poll_interval_secs : Nat
  idle_threshold_secs : Nat
deriving DecidableEq, Repr

/-- `TrackerConfig::default`. -/
def TrackerConfig.default : TrackerConfig := ⟨5, 120⟩

/-- `Activity` from `models/activity.rs`. -/
structure Activity where
  id : Option Nat
  timestamp : Int
  duration_secs : Int
  source : String
  app_name : Option String
  window_title : Option String
  url : Option String
  domain : Option String
  category_id : Option Int
deriving DecidableEq, Repr

/-- `Activity::new`. -/
def Activity.new (timestamp : Int) (duration_secs : Int) (source : String)
    (app_name window_title : Option String) : Activity :=
  ⟨none, timestamp, duration_secs, source, app_name, window_title, none, none, none⟩

/-- One iteration of the polling loop spawned by `TrackerService::start`.
The platform probes (`get_idle_time_secs`, `get_active_window`) and the
clock become the explicit `idle_secs`, `window`, `timestamp` inputs; the
`activities` table is threaded through (`Activity::save` appends the row —
its rowid assignment is irrelevant here and elided). -/
def tracker_cycle (cfg : TrackerConfig) (cat : Categorizer) (activities : List Activity)
    (idle_secs : Nat) (window : Option ActiveWindow) (timestamp : Int) : List Activity :=
  if idle_secs < cfg.idle_threshold_secs then
    match window with
    | some w =>
      let category_id := cat.categorize_app w.app_name (some w.window_title)
      let activity := {Activity.new timestamp (cfg.poll_interval_secs : Int) "app"
          (some w.app_name) (some w.window_title) with category_id := some category_id}
      activities ++ [activity]
    | none => activities
  else activities

/-! ## The single-active-session invariant -/

/-- The open rows of the `focus_sessions` table (`WHERE ended_at IS NULL`). -/
def activeRows (l : List FocusSession) : List FocusSession :=
  l.filter fun s => s.ended_at == none

/-- Number of open sessions. -/
def ActiveCount (l : List FocusSession) : Nat := (activeRows l).length

/-- Representation invariant of persisted rows: the rowid is assigned and
below the next rowid (`last_insert_rowid` grows past every existing row). -/
def rowIdOk (nextId : Nat) (s : FocusSession) : Bool :=
  match s.id with
  | some j => decide (j < nextId)
  | none => false

/-- The state invariant: at most one open session, plus the rowid
representation invariant of the stored rows. -/
def Db.Inv (db : Db) : Prop :=
  ActiveCount db.sessions ≤ 1 ∧ ∀ s ∈ db.sessions, rowIdOk db.nextId s = true

instance (db : Db) : Decidable db.Inv := by
  unfold Db.Inv; infer_instance

/-! ### `find_active` versus `activeRows` -/

theorem find_active_eq_fold (l : List FocusSession) :
    FocusSession.find_active l =
      (activeRows l).foldl
        (fun best s =>
          match best with
          | none => some s
          | some b => if b.started_at < s.started_at then some s else some b)
        none := rfl

theorem fold_pick_some (l : List FocusSession) (b : FocusSession) :
    ∃ c, (l.foldl
        (fun best s =>
          match best with
          | none => some s
          | some b => if b.started_at < s.started_at then some s else some b)
        (some b)) = some c ∧ (c ∈ l ∨ c = b) := by
  induction l generalizing b with
  | nil => exact ⟨b, rfl, Or.inr rfl⟩
  | cons x t ih =>
    by_cases hlt : b.started_at < x.started_at
    · obtain ⟨c, hc, hmem⟩ := ih x
      refine ⟨c, by simpa [hlt] using hc, ?_⟩
      rcases hmem with h | rfl
      · exact Or.inl (List.mem_cons_of_mem _ h)
      · exact Or.inl (List.mem_cons_self _ _)
    · obtain ⟨c, hc, hmem⟩ := ih b
      refine ⟨c, by simpa [hlt] using hc, ?_⟩
      rcases hmem with h | rfl
      · exact Or.inl (List.mem_cons_of_mem _ h)
      · exact Or.inr rfl

theorem find_active_none_iff (l : List FocusSession) :
    FocusSession.find_active l = none ↔ activeRows l = [] := by
  rw [find_active_eq_fold]
  cases hrows : activeRows l with
  | nil => simp
  | cons s t =>
    simp only [List.foldl_cons]
    obtain ⟨c, hc, _⟩ := fold_pick_some t s
    simp only [hc]
    constructor
    · intro h; cases h
    · intro h; cases h

theorem find_active_singleton {l : List FocusSession} {s : FocusSession}
    (h : activeRows l = [s]) : FocusSession.find_active l = some s := by
  rw [find_active_eq_fold, h]
  rfl

theorem find_active_mem {l : List FocusSession} {s : FocusSession}
    (h : FocusSession.find_active l = some s) : s ∈ activeRows l := by
  rw [find_active_eq_fold] at h
  cases hrows : activeRows l with
  | nil => rw [hrows] at h; cases h
  | cons x t =>
    rw [hrows] at h
    simp only [List.foldl_cons] at h
    obtain ⟨c, hc, hmem⟩ := fold_pick_some t x
    rw [hc] at h
    cases h
    rcases hmem with hmt | rfl
    · exact List.mem_cons_of_mem _ hmt
    · exact List.mem_cons_self _ _

/-- Under the invariant, a found active session is the only open row. -/
theorem find_active_unique {l : List FocusSession} {s : FocusSession}
    (hcount : ActiveCount l ≤ 1) (h : FocusSession.find_active l = some s) :
    activeRows l = [s] := by
  have hmem := find_active_mem h
  cases hrows : activeRows l with
  | nil => rw [hrows] at hmem; cases hmem
  | cons x t =>
    unfold ActiveCount at hcount
    rw [hrows] at hcount hmem
    have ht : t = [] := by
      cases t with
      | nil => rfl
      | cons y u => simp at hcount
    subst ht
    rcases List.mem_singleton.mp hmem with rfl
    rfl

theorem mem_of_mem_activeRows {l : List FocusSession} {s : FocusSession}
    (h : s ∈ activeRows l) : s ∈ l ∧ s.ended_at = none := by
  have := List.mem_filter.mp h
  exact ⟨this.1, by simpa using this.2⟩

/-! ### Effect of the row updates on the invariant -/

theorem rowIdOk_some {n : Nat} {s : FocusSession} (h : rowIdOk n s = true) :
    ∃ j, s.id = some j ∧ j < n := by
  unfold rowIdOk at h
  cases hid : s.id with
  | none => rw [hid] at h; cases h
  | some j =>
    rw [hid] at h
    exact ⟨j, rfl, by simpa using h⟩

theorem rowIdOk_mono {n : Nat} {s : FocusSession} (h : rowIdOk n s = true) :
    rowIdOk (n + 1) s = true := by
  obtain ⟨j, hid, hj⟩ := rowIdOk_some h
  unfold rowIdOk
  rw [hid]
  simpa using Nat.lt_succ_of_lt hj

theorem activeRows_append (l l' : List FocusSession) :
    activeRows (l ++ l') = activeRows l ++ activeRows l' :=
  List.filter_append _ _

theorem activeRows_append_active {l : List FocusSession} {s : FocusSession}
    (h : s.ended_at = none) : activeRows (l ++ [s]) = activeRows l ++ [s] := by
  rw [activeRows_append]
  simp [activeRows, List.filter, h]

/-- Ending every open row (they all carry rowid `i`) leaves no open rows. -/
theorem activeRows_endMap_nil {l : List FocusSession} {i : Nat} {now : Int}
    (h : ∀ r ∈ l, r.ended_at = none → r.id = some i) :
    activeRows (l.map fun r =>
      if r.id == some i then {r with ended_at := some now} else r) = [] := by
  induction l with
  | nil => rfl
  | cons x t ih =>
    have hrec := ih fun r hr => h r (List.mem_cons_of_mem _ hr)
    by_cases hid : x.id = some i
    · have hfx : (if x.id == some i then {x with ended_at := some now} else x) =
          {x with ended_at := some now} := by
        rw [if_pos (by simp [hid])]
      unfold activeRows
      rw [List.map_cons, List.filter_cons, hfx]
      rw [if_neg (by simp)]
      exact hrec
    · have hfx : (if x.id == some i then {x with ended_at := some now} else x) = x := by
        rw [if_neg (by simp [hid])]
      have hx : ¬ x.ended_at = none := fun hact => hid (h x (List.mem_cons_self _ _) hact)
      unfold activeRows
      rw [List.map_cons, List.filter_cons, hfx, if_neg (by simpa using hx)]
      exact hrec

/-- A keyed row update that does not touch `id` preserves the rowid
invariant. -/
theorem rowIdOk_map {g : FocusSession → FocusSession} (hg : ∀ r, (g r).id = r.id)
    {l : List FocusSession} {n : Nat} (h : ∀ r ∈ l, rowIdOk n r = true) (i : Nat) :
    ∀ r ∈ l.map (fun r => if r.id == some i then g r else r), rowIdOk n r = true := by
  intro r hr
  obtain ⟨x, hx, hmap⟩ := List.mem_map.mp hr
  by_cases hid : x.id = some i
  · rw [if_pos (by simp [hid])] at hmap
    subst hmap
    unfold rowIdOk
    rw [hg x]
    have := h x hx
    unfold rowIdOk at this
    exact this
  · rw [if_neg (by simp [hid])] at hmap
    subst hmap
    exact h x hx

/-- A keyed row update that does not touch `ended_at` preserves the number of
open rows. -/
theorem activeCount_map {g : FocusSession → FocusSession}
    (hg : ∀ r, (g r).ended_at = r.ended_at) (l : List FocusSession) (i : Nat) :
    ActiveCount (l.map fun r => if r.id == some i then g r else r) = ActiveCount l := by
  induction l with
  | nil => rfl
  | cons x t ih =>
    have hend : (if x.id == some i then g x else x).ended_at = x.ended_at := by
      split
      · exact hg x
      · rfl
    unfold ActiveCount activeRows at ih ⊢
    rw [List.map_cons, List.filter_cons, List.filter_cons, hend]
    by_cases hx : x.ended_at = none
    · have hc : (x.ended_at == none) = true := by simpa using hx
      rw [if_pos hc, if_pos hc]
      simpa using ih
    · have hc : ¬ (x.ended_at == none) = true := by simpa using hx
      rw [if_neg hc, if_neg hc]
      exact ih

/-! ### Session-starting core -/

/-- Common core of `start_session` and `start_scheduled_session` (the two Rust
functions are verbatim copies except for the `scheduled` tag passed to
`FocusSession::new`). -/
def startCore (db : Db) (now : Int) (budget : Int) (scheduled : Bool) :
    Option (FocusSession × Db) :=
  match FocusSession.find_active db.sessions with
  | some existing =>
    match existing.end_ db now with
    | none => none
    | some (_, db1) => some (db1.saveSession (FocusSession.new now budget scheduled))
  | none => some (db.saveSession (FocusSession.new now budget scheduled))

theorem start_session_eq_core (db : Db) (now b : Int) :
    FocusManager.start_session db now b = startCore db now b false := rfl

theorem start_scheduled_eq_core (db : Db) (now b : Int) :
    FocusManager.start_scheduled_session db now b = startCore db now b true := rfl

theorem end__eq {s : FocusSession} {i : Nat} (h : s.id = some i) (db : Db) (now : Int) :
    s.end_ db now = some ({s with ended_at := some now},
      {db with sessions := db.sessions.map fun r =>
        if r.id == some i then {r with ended_at := some now} else r}) := by
  unfold FocusSession.end_
  rw [h]
  rfl

/-- After the keyed end-update, every row carrying the key is closed. -/
theorem endMap_ended {l : List FocusSession} (i : Nat) (now : Int) :
    ∀ r ∈ l.map (fun r => if r.id == some i then {r with ended_at := some now} else r),
      r.id = some i → r.ended_at = some now := by
  intro r hr hid
  obtain ⟨x, hx, hmap⟩ := List.mem_map.mp hr
  by_cases hxi : x.id = some i
  · rw [if_pos (by simp [hxi])] at hmap
    subst hmap
    rfl
  · rw [if_neg (by simp [hxi])] at hmap
    subst hmap
    exact absurd hid hxi

/-- Ending the session returned by `find_active` (under the invariant) closes
every open row and keeps everything else intact. -/
theorem endActive_spec {db : Db} (hInv : db.Inv) {s : FocusSession}
    (hfind : FocusSession.find_active db.sessions = some s) (now : Int) :
    ∃ i db1, s.id = some i ∧ i < db.nextId ∧
      s.end_ db now = some ({s with ended_at := some now}, db1) ∧
      activeRows db1.sessions = [] ∧
      (∀ r ∈ db1.sessions, rowIdOk db.nextId r = true) ∧
      (∀ r ∈ db1.sessions, r.id = some i → r.ended_at = some now) ∧
      db1.nextId = db.nextId ∧ db1.rules = db.rules ∧
      db1.categories = db.categories ∧ db1.schedules = db.schedules := by
  obtain ⟨hcount, hids⟩ := hInv
  have hmem := mem_of_mem_activeRows (find_active_mem hfind)
  obtain ⟨j, hid, hj⟩ := rowIdOk_some (hids s hmem.1)
  have hrows := find_active_unique hcount hfind
  refine ⟨j, _, hid, hj, end__eq hid db now, ?_, ?_, ?_, rfl, rfl, rfl, rfl⟩
  · apply activeRows_endMap_nil
    intro r hr hract
    have : r ∈ activeRows db.sessions := List.mem_filter.mpr ⟨hr, by simpa using hract⟩
    rw [hrows] at this
    rcases List.mem_singleton.mp this with rfl
    exact hid
  · exact rowIdOk_map (g := fun r => {r with ended_at := some now}) (fun r => rfl) hids j
  · exact endMap_ended j now

theorem saveSession_eq (db : Db) (s : FocusSession) :
    db.saveSession s = ({s with id := some db.nextId},
      {db with sessions := db.sessions ++ [{s with id := some db.nextId}],
               nextId := db.nextId + 1}) := rfl

/-- Saving a fresh open session on a store with no open rows: the new row is
the unique open row and the invariant holds again. -/
theorem save_fresh_spec {db : Db} (hids : ∀ r ∈ db.sessions, rowIdOk db.nextId r = true)
    (hrows : activeRows db.sessions = []) (now budget : Int) (sch : Bool) :
    ∃ db', db.saveSession (FocusSession.new now budget sch) =
        (⟨some db.nextId, now, none, sch, budget, 0⟩, db') ∧
      db'.Inv ∧
      FocusSession.find_active db'.sessions =
        some ⟨some db.nextId, now, none, sch, budget, 0⟩ ∧
      db'.sessions = db.sessions ++ [⟨some db.nextId, now, none, sch, budget, 0⟩] ∧
      db'.nextId = db.nextId + 1 ∧ db'.rules = db.rules ∧
      db'.categories = db.categories ∧ db'.schedules = db.schedules := by
  refine ⟨_, saveSession_eq db _, ?_, ?_, rfl, rfl, rfl, rfl, rfl⟩
  · constructor
    · unfold ActiveCount
      rw [activeRows_append_active rfl, hrows]
      simp
    · intro r hr
      rcases List.mem_append.mp hr with h | h
      · exact rowIdOk_mono (hids r h)
      · rcases List.mem_singleton.mp h with rfl
        unfold rowIdOk
        simp
  · apply find_active_singleton
    rw [activeRows_append_active rfl, hrows]
    rfl

/-- Full description of `startCore` under the invariant: it succeeds, the old
open session (if any) is closed, and the inserted session is the new unique
active one. -/
theorem startCore_spec {db : Db} (hInv : db.Inv) (now budget : Int) (sch : Bool) :
    ∃ db', startCore db now budget sch =
        some (⟨some db.nextId, now, none, sch, budget, 0⟩, db') ∧
      db'.Inv ∧
      FocusSession.find_active db'.sessions =
        some ⟨some db.nextId, now, none, sch, budget, 0⟩ ∧
      (∀ old, FocusSession.find_active db.sessions = some old →
        ∀ r ∈ db'.sessions, r.id = old.id → r.ended_at = some now) ∧
      db'.rules = db.rules ∧ db'.categories = db.categories ∧
      db'.schedules = db.schedules := by
  cases hfind : FocusSession.find_active db.sessions with
  | none =>
    have hrows := (find_active_none_iff db.sessions).mp hfind
    obtain ⟨db', hsave, hInv', hfind', _, _, hr, hc, hs⟩ :=
      save_fresh_spec hInv.2 hrows now budget sch
    refine ⟨db', ?_, hInv', hfind', ?_, hr, hc, hs⟩
    · simp only [startCore, hfind, hsave]
    · intro old hold
      simp [hfind] at hold
  | some s =>
    obtain ⟨i, db1, hid, hilt, hend, hrows1, hids1, hended1, hnid1, hr1, hc1, hs1⟩ :=
      endActive_spec hInv hfind now
    have hids1' : ∀ r ∈ db1.sessions, rowIdOk db1.nextId r = true := by
      rw [hnid1]; exact hids1
    obtain ⟨db', hsave, hInv', hfind', hsess', hnid', hr', hc', hs'⟩ :=
      save_fresh_spec hids1' hrows1 now budget sch
    rw [hnid1] at hsave hfind'
    refine ⟨db', ?_, hInv', hfind', ?_, by rw [hr', hr1], by rw [hc', hc1],
      by rw [hs', hs1]⟩
    · simp only [startCore, hfind, hend, hsave]
    · intro old hold r hr hrid
      injection hold with holdeq
      subst holdeq
      rw [hid] at hrid
      rw [hsess'] at hr
      rcases List.mem_append.mp hr with h | h
      · exact hended1 r h hrid
      · rcases List.mem_singleton.mp h with rfl
        simp only at hrid
        rw [hnid1] at hrid
        cases hrid
        omega

theorem add_distraction_time_eq {s : FocusSession} {i : Nat} (h : s.id = some i)
    (db : Db) (secs : Int) :
    s.add_distraction_time db secs = some
      ({s with distraction_used := s.distraction_used + secs},
       {db with sessions := db.sessions.map fun r =>
          if r.id == some i then {r with distraction_used := s.distraction_used + secs}
          else r}) := by
  unfold FocusSession.add_distraction_time
  rw [h]
  rfl

/-- `end_session` always succeeds under the invariant and preserves it. -/
theorem end_session_inv {db : Db} (hInv : db.Inv) (now : Int) :
    ∃ res, FocusManager.end_session db now = some res ∧ res.2.Inv := by
  cases hfind : FocusSession.find_active db.sessions with
  | none =>
    refine ⟨(none, db), ?_, hInv⟩
    simp [FocusManager.end_session, hfind]
  | some s =>
    obtain ⟨i, db1, hid, hilt, hend, hrows1, hids1, hended1, hnid1, _, _, _⟩ :=
      endActive_spec hInv hfind now
    refine ⟨(some {s with ended_at := some now}, db1), ?_, ?_, ?_⟩
    · simp only [FocusManager.end_session, hfind, hend]
    · unfold ActiveCount
      rw [hrows1]
      simp
    · rw [hnid1]
      exact hids1

/-- `use_distraction_time` always succeeds under the invariant and preserves
it. -/
theorem use_distraction_time_inv {m : FocusManager} (hInv : m.db.Inv)
    (nowI : Nat) (secs : Int) :
    ∃ res, m.use_distraction_time nowI secs = some res ∧ res.2.db.Inv := by
  cases hrl : rateLimited m.last_distraction_request nowI with
  | true =>
    cases hfind : FocusSession.find_active m.db.sessions with
    | some s =>
      refine ⟨(some s.budget_remaining, m), ?_, hInv⟩
      simp [FocusManager.use_distraction_time, hrl, hfind]
    | none =>
      refine ⟨(none, m), ?_, hInv⟩
      simp [FocusManager.use_distraction_time, hrl, hfind]
  | false =>
    cases hfind : FocusSession.find_active m.db.sessions with
    | none =>
      refine ⟨(none, {m with last_distraction_request := some nowI}), ?_, hInv⟩
      simp [FocusManager.use_distraction_time, hrl, hfind]
    | some s =>
      have hmem := mem_of_mem_activeRows (find_active_mem hfind)
      obtain ⟨i, hid, hilt⟩ := rowIdOk_some (hInv.2 s hmem.1)
      have hadd := add_distraction_time_eq hid m.db secs
      refine ⟨(some ({s with distraction_used := s.distraction_used + secs}).budget_remaining,
        ⟨{m.db with sessions := m.db.sessions.map fun r =>
            if r.id == some i then {r with distraction_used := s.distraction_used + secs}
            else r}, some nowI⟩), ?_, ?_, ?_⟩
      · simp [FocusManager.use_distraction_time, hrl, hfind, hadd]
      · show ActiveCount (m.db.sessions.map _) ≤ 1
        rw [activeCount_map (g := fun r =>
          {r with distraction_used := s.distraction_used + secs}) (fun r => rfl)]
        exact hInv.1
      · exact rowIdOk_map (g := fun r =>
          {r with distraction_used := s.distraction_used + secs}) (fun r => rfl) hInv.2 i

/-! ### The reconciliation truth table, case by case -/

/-- Schedule active, no session: a scheduled session with the schedule's
budget is inserted and becomes the active session. -/
theorem check_schedules_start {db : Db} (hInv : db.Inv) {day : Nat} {time : String}
    {sch : FocusSchedule} (now : Int)
    (hS : FocusManager.find_active_schedule db.schedules day time = some sch)
    (hA : FocusSession.find_active db.sessions = none) :
    ∃ db', FocusManager.check_schedules db day time now = some db' ∧
      db'.Inv ∧
      db'.sessions = db.sessions ++
        [⟨some db.nextId, now, none, true, sch.distraction_budget, 0⟩] ∧
      FocusSession.find_active db'.sessions =
        some ⟨some db.nextId, now, none, true, sch.distraction_budget, 0⟩ := by
  have hrows := (find_active_none_iff db.sessions).mp hA
  obtain ⟨db', hsave, hInv', hfind', hsess', _, _, _, _⟩ :=
    save_fresh_spec hInv.2 hrows now sch.distraction_budget true
  refine ⟨db', ?_, hInv', hsess', hfind'⟩
  simp only [FocusManager.check_schedules, hS, hA, hsave]

/-- No schedule active, scheduled session active: the session is ended. -/
theorem check_schedules_stop {db : Db} (hInv : db.Inv) {day : Nat} {time : String}
    {s : FocusSession} (now : Int)
    (hS : FocusManager.find_active_schedule db.schedules day time = none)
    (hA : FocusSession.find_active db.sessions = some s)
    (hsch : s.scheduled = true) :
    ∃ db', FocusManager.check_schedules db day time now = some db' ∧
      db'.Inv ∧
      activeRows db'.sessions = [] ∧
      (∀ r ∈ db'.sessions, r.id = s.id → r.ended_at = some now) := by
  obtain ⟨i, db1, hid, hilt, hend, hrows1, hids1, hended1, hnid1, _, _, _⟩ :=
    endActive_spec hInv hA now
  refine ⟨db1, ?_, ⟨?_, ?_⟩, hrows1, ?_⟩
  · simp only [FocusManager.check_schedules, hS, hA, hsch, if_true, hend]
  · unfold ActiveCount
    rw [hrows1]
    simp
  · rw [hnid1]
    exact hids1
  · intro r hr hrid
    rw [hid] at hrid
    exact hended1 r hr hrid

/-- Schedule and scheduled session both active, budgets more than 60 s apart:
the session is ended and restarted with the schedule's budget. -/
theorem check_schedules_restart {db : Db} (hInv : db.Inv) {day : Nat} {time : String}
    {sch : FocusSchedule} {s : FocusSession} (now : Int)
    (hS : FocusManager.find_active_schedule db.schedules day time = some sch)
    (hA : FocusSession.find_active db.sessions = some s)
    (hsch : s.scheduled = true)
    (hdiff : 60 < (sch.distraction_budget - s.distraction_budget).natAbs) :
    ∃ db', FocusManager.check_schedules db day time now = some db' ∧
      db'.Inv ∧
      (∀ r ∈ db'.sessions, r.id = s.id → r.ended_at = some now) ∧
      FocusSession.find_active db'.sessions =
        some ⟨some db.nextId, now, none, true, sch.distraction_budget, 0⟩ := by
  obtain ⟨i, db1, hid, hilt, hend, hrows1, hids1, hended1, hnid1, _, _, _⟩ :=
    endActive_spec hInv hA now
  have hids1' : ∀ r ∈ db1.sessions, rowIdOk db1.nextId r = true := by
    rw [hnid1]; exact hids1
  obtain ⟨db', hsave, hInv', hfind', hsess', _, _, _, _⟩ :=
    save_fresh_spec hids1' hrows1 now sch.distraction_budget true
  rw [hnid1] at hsave hfind'
  refine ⟨db', ?_, hInv', ?_, hfind'⟩
  · simp only [FocusManager.check_schedules, hS, hA, hsch, if_true, if_pos hdiff,
      hend, hsave]
  · intro r hr hrid
    rw [hid] at hrid
    rw [hsess'] at hr
    rcases List.mem_append.mp hr with h | h
    · exact hended1 r h hrid
    · rcases List.mem_singleton.mp h with rfl
      simp only at hrid
      rw [hnid1] at hrid
      cases hrid
      omega

/-- Schedule and scheduled session both active, budgets within 60 s: no-op. -/
theorem check_schedules_noop_close {db : Db} {day : Nat} {time : String}
    {sch : FocusSchedule} {s : FocusSession} (now : Int)
    (hS : FocusManager.find_active_schedule db.schedules day time = some sch)
    (hA : FocusSession.find_active db.sessions = some s)
    (hsch : s.scheduled = true)
    (hdiff : ¬ 60 < (sch.distraction_budget - s.distraction_budget).natAbs) :
    FocusManager.check_schedules db day time now = some db := by
  simp only [FocusManager.check_schedules, hS, hA, hsch, if_true, if_neg hdiff]

/-- A manual session is never touched, whether or not a schedule is active. -/
theorem check_schedules_manual {db : Db} {day : Nat} {time : String}
    {s : FocusSession} (now : Int)
    (hA : FocusSession.find_active db.sessions = some s)
    (hsch : s.scheduled = false) :
    FocusManager.check_schedules db day time now = some db := by
  cases hS : FocusManager.find_active_schedule db.schedules day time with
  | some sch => simp [FocusManager.check_schedules, hS, hA, hsch]
  | none => simp [FocusManager.check_schedules, hS, hA, hsch]

/-- No schedule, no session: no-op. -/
theorem check_schedules_idle {db : Db} {day : Nat} {time : String} (now : Int)
    (hS : FocusManager.find_active_schedule db.schedules day time = none)
    (hA : FocusSession.find_active db.sessions = none) :
    FocusManager.check_schedules db day time now = some db := by
  simp only [FocusManager.check_schedules, hS, hA]

/-- `check_schedules` always succeeds under the invariant and preserves it. -/
theorem check_schedules_inv {db : Db} (hInv : db.Inv) (day : Nat) (time : String)
    (now : Int) :
    ∃ db', FocusManager.check_schedules db day time now = some db' ∧ db'.Inv := by
  cases hS : FocusManager.find_active_schedule db.schedules day time with
  | some sch =>
    cases hA : FocusSession.find_active db.sessions with
    | none =>
      obtain ⟨db', hck, hInv', _, _⟩ := check_schedules_start hInv now hS hA
      exact ⟨db', hck, hInv'⟩
    | some s =>
      cases hsch : s.scheduled with
      | true =>
        by_cases hdiff : 60 < (sch.distraction_budget - s.distraction_budget).natAbs
        · obtain ⟨db', hck, hInv', _, _⟩ := check_schedules_restart hInv now hS hA hsch hdiff
          exact ⟨db', hck, hInv'⟩
        · exact ⟨db, check_schedules_noop_close now hS hA hsch hdiff, hInv⟩
      | false => exact ⟨db, check_schedules_manual now hA hsch, hInv⟩
  | none =>
    cases hA : FocusSession.find_active db.sessions with
    | none => exact ⟨db, check_schedules_idle now hS hA, hInv⟩
    | some s =>
      cases hsch : s.scheduled with
      | true =>
        obtain ⟨db', hck, hInv', _, _⟩ := check_schedules_stop hInv now hS hA hsch
        exact ⟨db', hck, hInv'⟩
      | false => exact ⟨db, check_schedules_manual now hA hsch, hInv⟩

/-! ## Claim C1 -/

/-- **C1**: at most one `FocusSession` with `ended_at = null` exists at any
time.  For every state satisfying the invariant (`Db.Inv`: at most one open
row, plus the rowid representation invariant that `save` maintains), each of
`start_session`, `start_scheduled_session`, `end_session`,
`use_distraction_time` and `check_schedules` succeeds and preserves the
invariant; moreover the two start operations close any previously active
session (its rows get a non-null `ended_at`) and the inserted session is the
one subsequently returned by `find_active`. -/
theorem C1_single_active_session_invariant :
    (∀ db : Db, db.Inv → ∀ now budget : Int,
      ∃ s' db', FocusManager.start_session db now budget = some (s', db') ∧
        db'.Inv ∧ FocusSession.find_active db'.sessions = some s' ∧
        (∀ old, FocusSession.find_active db.sessions = some old →
          ∀ r ∈ db'.sessions, r.id = old.id → r.ended_at = some now)) ∧
    (∀ db : Db, db.Inv → ∀ now budget : Int,
      ∃ s' db', FocusManager.start_scheduled_session db now budget = some (s', db') ∧
        db'.Inv ∧ FocusSession.find_active db'.sessions = some s' ∧
        (∀ old, FocusSession.find_active db.sessions = some old →
          ∀ r ∈ db'.sessions, r.id = old.id → r.ended_at = some now)) ∧
    (∀ db : Db, db.Inv → ∀ now : Int,
      ∃ res, FocusManager.end_session db now = some res ∧ res.2.Inv) ∧
    (∀ m : FocusManager, m.db.Inv → ∀ (nowI : Nat) (secs : Int),
      ∃ res, m.use_distraction_time nowI secs = some res ∧ res.2.db.Inv) ∧
    (∀ db : Db, db.Inv → ∀ (day : Nat) (time : String) (now : Int),
      ∃ db', FocusManager.check_schedules db day time now = some db' ∧ db'.Inv) := by
  refine ⟨?_, ?_, ?_, ?_, ?_⟩
  · intro db hInv now budget
    obtain ⟨db', heq, hInv', hfind', hold, _, _, _⟩ := startCore_spec hInv now budget false
    exact ⟨_, db', by rw [start_session_eq_core, heq], hInv', hfind', hold⟩
  · intro db hInv now budget
    obtain ⟨db', heq, hInv', hfind', hold, _, _, _⟩ := startCore_spec hInv now budget true
    exact ⟨_, db', by rw [start_scheduled_eq_core, heq], hInv', hfind', hold⟩
  · intro db hInv now
    exact end_session_inv hInv now
  · intro m hInv nowI secs
    exact use_distraction_time_inv hInv nowI secs
  · intro db hInv day time now
    exact check_schedules_inv hInv day time now

theorem C1_witness :
    ∃ s' db', FocusManager.start_session ⟨[⟨some 0, 50, none, false, 300, 0⟩], 1, [], [], []⟩
        100 600 = some (s', db') ∧
      db'.Inv ∧ FocusSession.find_active db'.sessions = some s' ∧
      (∀ old, FocusSession.find_active
          (⟨[⟨some 0, 50, none, false, 300, 0⟩], 1, [], [], []⟩ : Db).sessions = some old →
        ∀ r ∈ db'.sessions, r.id = old.id → r.ended_at = some 100) :=
  C1_single_active_session_invariant.1
    ⟨[⟨some 0, 50, none, false, 300, 0⟩], 1, [], [], []⟩ (by decide) 100 600

/-! ## Claim C8 -/

/-- **C8** is false as stated: `add_distraction_time` takes a signed `secs`
and adds it unconditionally, so a negative argument decreases
`distraction_used`.  Concretely, on a persisted session with
`distraction_used = 5`, calling `add_distraction_time(-1)` yields
`distraction_used = 4 < 5`. -/
theorem C8_counterexample :
    ((FocusSession.mk (some 0) 0 none false 300 5).add_distraction_time
        (Db.mk [⟨some 0, 0, none, false, 300, 5⟩] 1 [] [] []) (-1)).map
      (fun out => out.1.distraction_used) = some 4 ∧ ¬ ((5 : Int) ≤ 4) := by
  decide

/-- **C8** (amended): for every call with a non-negative `secs` on a persisted
session, `distraction_used` does not decrease — neither on the returned
in-memory session (it becomes exactly `used + secs`) nor on any stored row. -/
theorem C8_add_distraction_time_monotone {s : FocusSession} {db : Db} {secs : Int}
    {out : FocusSession × Db} (h : s.add_distraction_time db secs = some out)
    (hsecs : 0 ≤ secs) :
    s.distraction_used ≤ out.1.distraction_used ∧
    out.1.distraction_used = s.distraction_used + secs ∧
    ∀ r ∈ out.2.sessions, r ∈ db.sessions ∨
      r.distraction_used = s.distraction_used + secs := by
  unfold FocusSession.add_distraction_time at h
  cases hid : s.id with
  | none => rw [hid] at h; cases h
  | some i =>
    rw [hid] at h
    simp only [Option.map_some'] at h
    injection h with h'
    subst h'
    refine ⟨?_, rfl, ?_⟩
    · show s.distraction_used ≤ s.distraction_used + secs
      omega
    · intro r hr
      obtain ⟨x, hx, hmap⟩ := List.mem_map.mp hr
      by_cases hxi : x.id = some i
      · rw [if_pos (by simp [hxi])] at hmap
        subst hmap
        exact Or.inr rfl
      · rw [if_neg (by simp [hxi])] at hmap
        subst hmap
        exact Or.inl hx

theorem C8_witness :
    (0 : Int) ≤ 10 ∧ (5 : Int) ≤ 15 :=
  ⟨by decide, by
    have h := @C8_add_distraction_time_monotone
      ⟨some 0, 0, none, false, 300, 5⟩
      ⟨[⟨some 0, 0, none, false, 300, 5⟩], 1, [], [], []⟩
      10
      (⟨some 0, 0, none, false, 300, 15⟩,
        ⟨[⟨some 0, 0, none, false, 300, 15⟩], 1, [], [], []⟩)
      (by decide) (by decide)
    exact h.1⟩

/-! ## Claim C9 -/

/-- **C9**: in every sampler cycle, an idle reading at or above
`idle_threshold_secs` records nothing; below the threshold with an active
window present, exactly one sample is appended, with
`duration_secs = poll_interval_secs`, `source = "app"`, and the category
assigned by `categorize_app` on the window's app name and title. -/
theorem C9_sampler_cycle (cfg : TrackerConfig) (cat : Categorizer)
    (activities : List Activity) (idle_secs : Nat) (window : Option ActiveWindow)
    (timestamp : Int) :
    (cfg.idle_threshold_secs ≤ idle_secs →
      tracker_cycle cfg cat activities idle_secs window timestamp = activities) ∧
    (∀ w, idle_secs < cfg.idle_threshold_secs → window = some w →
      tracker_cycle cfg cat activities idle_secs window timestamp =
        activities ++ [⟨none, timestamp, (cfg.poll_interval_secs : Int), "app",
          some w.app_name, some w.window_title, none, none,
          some (cat.categorize_app w.app_name (some w.window_title))⟩]) := by
  constructor
  · intro h
    unfold tracker_cycle
    rw [if_neg (by omega)]
  · intro w h hw
    subst hw
    unfold tracker_cycle
    rw [if_pos h]
    rfl

theorem C9_witness :
    tracker_cycle ⟨5, 120⟩ ⟨[], 1⟩ [] 200 none 0 = [] ∧
    tracker_cycle ⟨5, 120⟩ ⟨[], 1⟩ [] 3 (some ⟨"App", "Title", none⟩) 7 =
      [⟨none, 7, 5, "app", some "App", some "Title", none, none, some 1⟩] := by
  constructor
  · exact (C9_sampler_cycle ⟨5, 120⟩ ⟨[], 1⟩ [] 200 none 0).1 (by decide)
  · have h := (C9_sampler_cycle ⟨5, 120⟩ ⟨[], 1⟩ [] 3 (some ⟨"App", "Title", none⟩) 7).2
      ⟨"App", "Title", none⟩ (by decide) rfl
    exact h.trans (by decide)

/-! ## Claim C3 -/

/-- **C3**: `use_distraction_time` is rate-limited with a 25-second window.
A call within 25 seconds of the prior accepted call returns the current
remaining budget and changes nothing (manager state, including every row's
`distraction_used`, is untouched); a call outside the window with an active
session adds `secs` to `distraction_used`, persists it, and returns the new
remaining budget; a call with no active session returns `none`.  The final
conjunct is the concrete scenario: two `use_distraction_time(100)` calls
within 25 seconds deduct only once, and a third call after the window reopens
deducts again. -/
theorem C3_use_distraction_time_rate_limited :
    (∀ (m : FocusManager) (l nowI : Nat) (secs : Int),
      m.last_distraction_request = some l →
      nowI - l < DISTRACTION_TIME_RATE_LIMIT →
      m.use_distraction_time nowI secs =
        some ((FocusSession.find_active m.db.sessions).map FocusSession.budget_remaining,
          m)) ∧
    (∀ (m : FocusManager) (nowI : Nat) (secs : Int) (s : FocusSession),
      rateLimited m.last_distraction_request nowI = false →
      FocusSession.find_active m.db.sessions = some s → m.db.Inv →
      ∃ i, s.id = some i ∧
        m.use_distraction_time nowI secs =
          some (some (max (s.distraction_budget - (s.distraction_used + secs)) 0),
            ⟨⟨m.db.sessions.map fun r =>
                if r.id == some i
                then {r with distraction_used := s.distraction_used + secs} else r,
              m.db.nextId, m.db.rules, m.db.categories, m.db.schedules⟩,
             some nowI⟩)) ∧
    (∀ (m : FocusManager) (nowI : Nat) (secs : Int),
      FocusSession.find_active m.db.sessions = none →
      ∃ m', m.use_distraction_time nowI secs = some (none, m')) ∧
    ((⟨⟨[⟨some 0, 0, none, false, 300, 0⟩], 1, [], [], []⟩, none⟩ : FocusManager).use_distraction_time
        5 100 =
      some (some 200, ⟨⟨[⟨some 0, 0, none, false, 300, 100⟩], 1, [], [], []⟩, some 5⟩) ∧
    (⟨⟨[⟨some 0, 0, none, false, 300, 100⟩], 1, [], [], []⟩, some 5⟩ : FocusManager).use_distraction_time
        20 100 =
      some (some 200, ⟨⟨[⟨some 0, 0, none, false, 300, 100⟩], 1, [], [], []⟩, some 5⟩) ∧
    (⟨⟨[⟨some 0, 0, none, false, 300, 100⟩], 1, [], [], []⟩, some 5⟩ : FocusManager).use_distraction_time
        31 100 =
      some (some 100, ⟨⟨[⟨some 0, 0, none, false, 300, 200⟩], 1, [], [], []⟩, some 31⟩)) := by
  refine ⟨?_, ?_, ?_, by decide, by decide, by decide⟩
  · intro m l nowI secs hlast hlt
    have hrl : rateLimited m.last_distraction_request nowI = true := by
      simp [rateLimited, hlast, hlt]
    cases hfind : FocusSession.find_active m.db.sessions with
    | some s => simp [FocusManager.use_distraction_time, hrl, hfind]
    | none => simp [FocusManager.use_distraction_time, hrl, hfind]
  · intro m nowI secs s hrl hfind hInv
    have hmem := mem_of_mem_activeRows (find_active_mem hfind)
    obtain ⟨i, hid, hilt⟩ := rowIdOk_some (hInv.2 s hmem.1)
    have hadd := add_distraction_time_eq hid m.db secs
    refine ⟨i, hid, ?_⟩
    simp [FocusManager.use_distraction_time, hrl, hfind, hadd,
      FocusSession.budget_remaining]
  · intro m nowI secs hfind
    cases hrl : rateLimited m.last_distraction_request nowI with
    | true =>
      exact ⟨m, by simp [FocusManager.use_distraction_time, hrl, hfind]⟩
    | false =>
      exact ⟨{m with last_distraction_request := some nowI},
        by simp [FocusManager.use_distraction_time, hrl, hfind]⟩

theorem C3_witness :
    ((⟨⟨[⟨some 0, 0, none, false, 300, 100⟩], 1, [], [], []⟩, some 5⟩ : FocusManager).use_distraction_time
        20 100 =
      some (some 200, ⟨⟨[⟨some 0, 0, none, false, 300, 100⟩], 1, [], [], []⟩, some 5⟩)) ∧
    (∃ i, (FocusSession.mk (some 0) 0 none false 300 0).id = some i ∧
      (⟨⟨[⟨some 0, 0, none, false, 300, 0⟩], 1, [], [], []⟩, none⟩ : FocusManager).use_distraction_time
          5 100 =
        some (some (max ((300 : Int) - (0 + 100)) 0),
          ⟨⟨[⟨some 0, 0, none, false, 300, 0⟩].map fun r =>
              if r.id == some i
              then {r with distraction_used := (0 : Int) + 100} else r,
            1, [], [], []⟩,
           some 5⟩)) ∧
    (∃ m', (⟨⟨[], 0, [], [], []⟩, none⟩ : FocusManager).use_distraction_time 3 50 =
      some (none, m')) := by
  refine ⟨?_, ?_, ?_⟩
  · have h := C3_use_distraction_time_rate_limited.1
      ⟨⟨[⟨some 0, 0, none, false, 300, 100⟩], 1, [], [], []⟩, some 5⟩ 5 20 100 rfl (by decide)
    exact h.trans (by decide)
  · exact C3_use_distraction_time_rate_limited.2.1
      ⟨⟨[⟨some 0, 0, none, false, 300, 0⟩], 1, [], [], []⟩, none⟩ 5 100
      ⟨some 0, 0, none, false, 300, 0⟩ (by decide) (by decide) (by decide)
  · exact C3_use_distraction_time_rate_limited.2.2.1
      ⟨⟨[], 0, [], [], []⟩, none⟩ 3 50 (by decide)

/-! ## Claim C10 -/

/-- **C10**: every non-rate-limited call records the current instant as the
new rate-limit timestamp before looking up the active session; in particular a
call made with no active session returns `none` yet still opens a fresh
25-second window, so a deduction attempted within 25 seconds of that
no-session call (here: right after a session then starts) is rate-limited and
does not reduce the budget. -/
theorem C10_rate_limit_opens_on_no_session :
    (∀ (m : FocusManager) (nowI : Nat) (secs : Int) (res : Option Int × FocusManager),
      rateLimited m.last_distraction_request nowI = false →
      m.use_distraction_time nowI secs = some res →
      res.2.last_distraction_request = some nowI) ∧
    (∀ (m : FocusManager) (nowI : Nat) (secs : Int),
      FocusSession.find_active m.db.sessions = none →
      rateLimited m.last_distraction_request nowI = false →
      m.use_distraction_time nowI secs = some (none, ⟨m.db, some nowI⟩)) ∧
    ((⟨⟨[], 0, [], [], []⟩, none⟩ : FocusManager).use_distraction_time 10 100 =
      some (none, ⟨⟨[], 0, [], [], []⟩, some 10⟩) ∧
    FocusManager.start_session (⟨[], 0, [], [], []⟩ : Db) 1000 600 =
      some (⟨some 0, 1000, none, false, 600, 0⟩,
        ⟨[⟨some 0, 1000, none, false, 600, 0⟩], 1, [], [], []⟩) ∧
    (⟨⟨[⟨some 0, 1000, none, false, 600, 0⟩], 1, [], [], []⟩, some 10⟩ : FocusManager).use_distraction_time
        20 100 =
      some (some 600,
        ⟨⟨[⟨some 0, 1000, none, false, 600, 0⟩], 1, [], [], []⟩, some 10⟩)) := by
  refine ⟨?_, ?_, by decide, by decide, by decide⟩
  · intro m nowI secs res hrl h
    cases hfind : FocusSession.find_active m.db.sessions with
    | none =>
      simp [FocusManager.use_distraction_time, hrl, hfind] at h
      subst h
      rfl
    | some s =>
      simp only [FocusManager.use_distraction_time, hrl, Bool.false_eq_true,
        if_false, hfind] at h
      cases hadd : FocusSession.add_distraction_time s
          {m with last_distraction_request := some nowI}.db secs with
      | none => rw [hadd] at h; cases h
      | some out =>
        rw [hadd] at h
        cases out with
        | mk s' db' =>
          simp only at h
          injection h with h'
          subst h'
          rfl
  · intro m nowI secs hfind hrl
    simp [FocusManager.use_distraction_time, hrl, hfind]

theorem C10_witness :
    (⟨⟨[], 5, [], [], []⟩, some 1⟩ : FocusManager).use_distraction_time 60 30 =
      some (none, ⟨⟨[], 5, [], [], []⟩, some 60⟩) :=
  C10_rate_limit_opens_on_no_session.2.1 ⟨⟨[], 5, [], [], []⟩, some 1⟩ 60 30 rfl (by decide)

/-! ## Claim C2 -/

/-- **C2**: the `check_schedules` reconciliation truth table.  A schedule is
"active" when it is enabled, today is in its day set and the current `HH:MM`
lies in the half-open `[start_time, end_time)` interval — conjunct (a) relates
the schedule picked by `find_active_schedule` to that predicate.  Then, under
the state invariant: (b) active schedule and no session starts a scheduled
session with the schedule's budget; (c) no active schedule and a scheduled
active session ends that session; (d) both present with a scheduled session
restarts it exactly when the budgets differ by more than 60 seconds, (e) and
leaves the store untouched when they differ by at most 60 seconds; (f) with a
manual active session any number of `check_schedules` calls returns the store
unchanged (so the session's budget, used time and `ended_at` are unchanged);
(g) with neither schedule nor session the call is a no-op. -/
theorem C2_check_schedules_truth_table :
    (∀ (tbl : List FocusSchedule) (day : Nat) (time : String),
      (FocusManager.find_active_schedule tbl day time).isSome = true ↔
        ∃ s ∈ tbl, s.is_active_at day time = true) ∧
    (∀ (db : Db) (day : Nat) (time : String) (sch : FocusSchedule) (now : Int),
      db.Inv →
      FocusManager.find_active_schedule db.schedules day time = some sch →
      FocusSession.find_active db.sessions = none →
      ∃ db', FocusManager.check_schedules db day time now = some db' ∧ db'.Inv ∧
        db'.sessions = db.sessions ++
          [⟨some db.nextId, now, none, true, sch.distraction_budget, 0⟩] ∧
        FocusSession.find_active db'.sessions =
          some ⟨some db.nextId, now, none, true, sch.distraction_budget, 0⟩) ∧
    (∀ (db : Db) (day : Nat) (time : String) (s : FocusSession) (now : Int),
      db.Inv →
      FocusManager.find_active_schedule db.schedules day time = none →
      FocusSession.find_active db.sessions = some s → s.scheduled = true →
      ∃ db', FocusManager.check_schedules db day time now = some db' ∧ db'.Inv ∧
        activeRows db'.sessions = [] ∧
        (∀ r ∈ db'.sessions, r.id = s.id → r.ended_at = some now)) ∧
    (∀ (db : Db) (day : Nat) (time : String) (sch : FocusSchedule) (s : FocusSession)
      (now : Int),
      db.Inv →
      FocusManager.find_active_schedule db.schedules day time = some sch →
      FocusSession.find_active db.sessions = some s → s.scheduled = true →
      60 < (sch.distraction_budget - s.distraction_budget).natAbs →
      ∃ db', FocusManager.check_schedules db day time now = some db' ∧ db'.Inv ∧
        (∀ r ∈ db'.sessions, r.id = s.id → r.ended_at = some now) ∧
        FocusSession.find_active db'.sessions =
          some ⟨some db.nextId, now, none, true, sch.distraction_budget, 0⟩) ∧
    (∀ (db : Db) (day : Nat) (time : String) (sch : FocusSchedule) (s : FocusSession)
      (now : Int),
      FocusManager.find_active_schedule db.schedules day time = some sch →
      FocusSession.find_active db.sessions = some s → s.scheduled = true →
      ¬ 60 < (sch.distraction_budget - s.distraction_budget).natAbs →
      FocusManager.check_schedules db day time now = some db) ∧
    (∀ (db : Db) (day : Nat) (time : String) (s : FocusSession) (now : Int),
      FocusSession.find_active db.sessions = some s → s.scheduled = false →
      ∀ n, FocusManager.checkIter day time now n db = some db) ∧
    (∀ (db : Db) (day : Nat) (time : String) (now : Int),
      FocusManager.find_active_schedule db.schedules day time = none →
      FocusSession.find_active db.sessions = none →
      FocusManager.check_schedules db day time now = some db) := by
  refine ⟨?_, ?_, ?_, ?_, ?_, ?_, ?_⟩
  · intro tbl day time
    unfold FocusManager.find_active_schedule
    rw [List.find?_isSome]
    constructor
    · rintro ⟨x, hx, hpx⟩
      refine ⟨x, ?_, hpx⟩
      unfold FocusSchedule.find_enabled at hx
      have hmem := (List.perm_insertionSort scheduleOrder _).mem_iff.mp hx
      exact (List.mem_filter.mp hmem).1
    · rintro ⟨x, hx, hpx⟩
      refine ⟨x, ?_, hpx⟩
      unfold FocusSchedule.find_enabled
      apply (List.perm_insertionSort scheduleOrder _).mem_iff.mpr
      apply List.mem_filter.mpr
      refine ⟨hx, ?_⟩
      have hpx' := hpx
      unfold FocusSchedule.is_active_at at hpx'
      simp only [Bool.and_eq_true] at hpx'
      exact hpx'.1.1
  · intro db day time sch now hInv hS hA
    exact check_schedules_start hInv now hS hA
  · intro db day time s now hInv hS hA hsch
    exact check_schedules_stop hInv now hS hA hsch
  · intro db day time sch s now hInv hS hA hsch hdiff
    exact check_schedules_restart hInv now hS hA hsch hdiff
  · intro db day time sch s now hS hA hsch hdiff
    exact check_schedules_noop_close now hS hA hsch hdiff
  · intro db day time s now hA hsch n
    induction n with
    | zero => rfl
    | succ k ih =>
      show (FocusManager.check_schedules db day time now).bind _ = some db
      rw [check_schedules_manual now hA hsch]
      exact ih
  · intro db day time now hS hA
    exact check_schedules_idle now hS hA

theorem C2_witness :
    (FocusManager.check_schedules
        ⟨[⟨some 0, 100, none, true, 580, 0⟩], 1, [], [],
          [⟨some 0, "1,2,3,4,5", "09:00", "12:00", 600, true⟩]⟩ 1 "10:00" 500 =
      some ⟨[⟨some 0, 100, none, true, 580, 0⟩], 1, [], [],
        [⟨some 0, "1,2,3,4,5", "09:00", "12:00", 600, true⟩]⟩) ∧
    (∀ n, FocusManager.checkIter 6 "10:00" 500 n
        ⟨[⟨some 0, 100, none, false, 30, 0⟩], 1, [], [],
          [⟨some 0, "1,2,3,4,5", "09:00", "12:00", 600, true⟩]⟩ =
      some ⟨[⟨some 0, 100, none, false, 30, 0⟩], 1, [], [],
        [⟨some 0, "1,2,3,4,5", "09:00", "12:00", 600, true⟩]⟩) := by
  constructor
  · have hS : FocusManager.find_active_schedule
        [⟨some 0, "1,2,3,4,5", "09:00", "12:00", 600, true⟩] 1 "10:00" =
        some ⟨some 0, "1,2,3,4,5", "09:00", "12:00", 600, true⟩ := rfl
    exact C2_check_schedules_truth_table.2.2.2.2.1
      ⟨[⟨some 0, 100, none, true, 580, 0⟩], 1, [], [],
        [⟨some 0, "1,2,3,4,5", "09:00", "12:00", 600, true⟩]⟩ 1 "10:00"
      ⟨some 0, "1,2,3,4,5", "09:00", "12:00", 600, true⟩
      ⟨some 0, 100, none, true, 580, 0⟩ 500 hS rfl rfl (by decide)
  · exact C2_check_schedules_truth_table.2.2.2.2.2.1
      ⟨[⟨some 0, 100, none, false, 30, 0⟩], 1, [], [],
        [⟨some 0, "1,2,3,4,5", "09:00", "12:00", 600, true⟩]⟩ 6 "10:00"
      ⟨some 0, 100, none, false, 30, 0⟩ 500 rfl rfl

/-! ## Claim C6 -/

theorem toLower_star_iff (c : Char) : c.toLower = '*' ↔ c = '*' := by
  show (if c.toNat ≥ 65 ∧ c.toNat ≤ 90 then Char.ofNat (c.toNat + 32) else c) = '*' ↔
    c = '*'
  split
  · rename_i h
    constructor
    · intro heq
      exfalso
      have h42 := congrArg Char.toNat heq
      obtain ⟨h1, h2⟩ := h
      generalize hk : c.toNat = k at h1 h2 h42
      interval_cases k <;> exact absurd h42 (by decide)
    · intro heq
      subst heq
      exact absurd h (by decide)
  · exact Iff.rfl

theorem lower_contains_star (l : List Char) :
    (lower l).contains '*' = l.contains '*' := by
  induction l with
  | nil => rfl
  | cons c cs ih =>
    show (('*' == c.toLower) || (lower cs).contains '*') = (('*' == c) || cs.contains '*')
    rw [ih]
    by_cases hc : c = '*'
    · subst hc; rfl
    · have h1 : ('*' == c) = false := by
        simp [BEq.beq]
        exact fun h => hc h.symm
      have h2 : ('*' == c.toLower) = false := by
        simp [BEq.beq]
        intro h
        exact hc ((toLower_star_iff c).mp h.symm)
      rw [h1, h2]

theorem infix_iff_exists_prefix_drop {l p : List Char} :
    p <:+: l ↔ ∃ i, p.isPrefixOf (l.drop i) = true := by
  constructor
  · rintro ⟨s, t, rfl⟩
    refine ⟨s.length, ?_⟩
    rw [List.append_assoc, List.drop_left]
    exact List.isPrefixOf_iff_prefix.mpr (List.prefix_append p t)
  · rintro ⟨i, hi⟩
    exact (List.isPrefixOf_iff_prefix.mp hi).isInfix.trans (List.drop_suffix i l).isInfix

/-- **C6**: the rule-matching predicate.  (i) For a pattern containing `*`,
the text matches iff each non-empty segment of the (lowercased) pattern,
split on `*`, occurs in the (lowercased) text in order as disjoint
substrings; (ii) a pattern without `*` matches iff it is a case-insensitive
substring (infix) of the text; (iii) matching is case-insensitive: texts and
patterns equal up to case match identically; (iv) `"*.github.*"` matches
`"www.github.com"` and `"gist.github.io"` but not `"gitlab.com"`. -/
theorem C6_pattern_matches_spec :
    (∀ pattern text : String, '*' ∈ pattern.data →
      (pattern_matches pattern text = true ↔
        SegsOccurInOrder
          (((lower pattern.data).splitOn '*').filter fun p => !p.isEmpty)
          (lower text.data))) ∧
    (∀ pattern text : String, '*' ∉ pattern.data →
      (pattern_matches pattern text = true ↔
        (lower pattern.data) <:+: (lower text.data))) ∧
    (∀ p p' t t' : String, lower p.data = lower p'.data →
      lower t.data = lower t'.data →
      pattern_matches p t = pattern_matches p' t') ∧
    (pattern_matches "*.github.*" "www.github.com" = true ∧
     pattern_matches "*.github.*" "gist.github.io" = true ∧
     pattern_matches "*.github.*" "gitlab.com" = false) := by
  refine ⟨?_, ?_, ?_, by decide, by decide, by decide⟩
  · intro pattern text hstar
    have hc : (lower pattern.data).contains '*' = true := by
      rw [lower_contains_star]
      exact List.elem_eq_true_of_mem hstar
    unfold pattern_matches
    rw [if_pos hc, matchSegs_filter_ne_nil]
    exact matchSegs_iff
  · intro pattern text hstar
    have hc : (lower pattern.data).contains '*' = false := by
      rw [lower_contains_star]
      cases helem : pattern.data.contains '*'
      · rfl
      · exact absurd (List.mem_of_elem_eq_true helem) hstar
    unfold pattern_matches
    rw [if_neg (by rw [hc]; exact Bool.false_ne_true), findSub_isSome_iff]
    exact Iff.symm infix_iff_exists_prefix_drop
  · intro p p' t t' hp ht
    unfold pattern_matches
    rw [hp, ht]

theorem C6_witness :
    (pattern_matches "code" "Visual Studio CODE" = true ↔
      (lower "code".data) <:+: (lower "Visual Studio CODE".data)) ∧
    pattern_matches "CODE" "visual studio code" =
      pattern_matches "code" "VISUAL STUDIO CODE" ∧
    (pattern_matches "*git*" "github.com" = true ↔
      SegsOccurInOrder
        (((lower "*git*".data).splitOn '*').filter fun p => !p.isEmpty)
        (lower "github.com".data)) := by
  refine ⟨?_, ?_, ?_⟩
  · exact C6_pattern_matches_spec.2.1 "code" "Visual Studio CODE" (by decide)
  · exact C6_pattern_matches_spec.2.2.1 "CODE" "code" "visual studio code"
      "VISUAL STUDIO CODE" (by decide) (by decide)
  · exact C6_pattern_matches_spec.1 "*git*" "github.com" (by decide)

/-! ## Claims C4 and C5 -/

/-- Common shape of the two categorization loops: first rule (in index order)
whose per-rule test passes wins, else the fallback id. -/
def categorizeBy (c : Categorizer) (q : Rule → Bool) : Int :=
  match c.rules.find? (fun rc => q rc.1) with
  | some rc => rc.1.category_id
  | none => c.default_category_id

theorem categorize_app_eq_by (c : Categorizer) (app : String) (title : Option String) :
    c.categorize_app app title = categorizeBy c (fun r => r.matches_app app title) := rfl

theorem categorize_url_eq_by (c : Categorizer) (domain : String) :
    c.categorize_url domain = categorizeBy c (fun r => r.matches_url domain) := rfl

/-- When no applicable rule matches, the fallback id is returned:
the id of the first category named "Uncategorized", else `1`. -/
theorem categorizeBy_no_match {ruleTbl : List Rule} {catTbl : List Category}
    {q : Rule → Bool}
    (h : ∀ r ∈ ruleTbl, (catTbl.find? fun c => c.id == r.category_id).isSome = true →
      q r = false) :
    categorizeBy (Categorizer.new ruleTbl catTbl) q =
      ((catTbl.find? fun c => c.name == "Uncategorized").map Category.id).getD 1 := by
  unfold categorizeBy
  have hnone : (Categorizer.new ruleTbl catTbl).rules.find? (fun rc => q rc.1) = none := by
    apply List.find?_eq_none.mpr
    intro rc hrc
    obtain ⟨hmem, hcat⟩ := categorizer_rules_mem hrc
    have := h rc.1 hmem (by rw [hcat]; rfl)
    simp [this]
  rw [hnone]
  rfl

/-- When some applicable rule matches, the result is the category of a
matching rule (with existing category) of maximal priority among all matching
applicable rules. -/
theorem categorizeBy_match {ruleTbl : List Rule} {catTbl : List Category}
    {q : Rule → Bool} {r : Rule} {c : Category}
    (hr : r ∈ ruleTbl) (hc : catTbl.find? (fun c => c.id == r.category_id) = some c)
    (hq : q r = true) :
    ∃ rb ∈ ruleTbl, q rb = true ∧
      (catTbl.find? fun c => c.id == rb.category_id).isSome = true ∧
      categorizeBy (Categorizer.new ruleTbl catTbl) q = rb.category_id ∧
      ∀ r' ∈ ruleTbl, (catTbl.find? fun c => c.id == r'.category_id).isSome = true →
        q r' = true → r'.priority ≤ rb.priority := by
  have hmem := categorizer_rules_mem_of hr hc
  have hsome : ((Categorizer.new ruleTbl catTbl).rules.find? (fun rc => q rc.1)).isSome = true :=
    List.find?_isSome.mpr ⟨(r, c), hmem, hq⟩
  cases hfind : (Categorizer.new ruleTbl catTbl).rules.find? (fun rc => q rc.1) with
  | none => rw [hfind] at hsome; cases hsome
  | some rc0 =>
    have hq0 := List.find?_some hfind
    obtain ⟨hmem0, hcat0⟩ := categorizer_rules_mem (List.mem_of_find?_eq_some hfind)
    refine ⟨rc0.1, hmem0, hq0, by rw [hcat0]; rfl, ?_, ?_⟩
    · unfold categorizeBy
      rw [hfind]
    · intro r' hr' hcat' hq'
      obtain ⟨c', hc'⟩ := Option.isSome_iff_exists.mp hcat'
      have hmem' := categorizer_rules_mem_of hr' hc'
      exact find?_sorted_max (fun rc => rc.1.priority)
        (categorizer_rules_sorted ruleTbl catTbl) hfind (r', c') hmem' hq'

/-- **C4**: for every rule set and input, `categorize_app` and
`categorize_url` return a category id and never fail: when no applicable rule
(with a still-existing category) matches, the id of the "Uncategorized"
category is returned, falling back to `1` if that category is missing; when
some applicable rule matches, the result is the category of a matching rule
of maximal priority (the first match in descending priority order). -/
theorem C4_categorize_total_fallback :
    (∀ (ruleTbl : List Rule) (catTbl : List Category) (app : String)
        (title : Option String),
      (∀ r ∈ ruleTbl, (catTbl.find? fun c => c.id == r.category_id).isSome = true →
        r.matches_app app title = false) →
      (Categorizer.new ruleTbl catTbl).categorize_app app title =
        ((catTbl.find? fun c => c.name == "Uncategorized").map Category.id).getD 1) ∧
    (∀ (ruleTbl : List Rule) (catTbl : List Category) (app : String)
        (title : Option String) (r : Rule) (c : Category),
      r ∈ ruleTbl → catTbl.find? (fun c => c.id == r.category_id) = some c →
      r.matches_app app title = true →
      ∃ rb ∈ ruleTbl, rb.matches_app app title = true ∧
        (Categorizer.new ruleTbl catTbl).categorize_app app title = rb.category_id ∧
        ∀ r' ∈ ruleTbl, (catTbl.find? fun c => c.id == r'.category_id).isSome = true →
          r'.matches_app app title = true → r'.priority ≤ rb.priority) ∧
    (∀ (ruleTbl : List Rule) (catTbl : List Category) (domain : String),
      (∀ r ∈ ruleTbl, (catTbl.find? fun c => c.id == r.category_id).isSome = true →
        r.matches_url domain = false) →
      (Categorizer.new ruleTbl catTbl).categorize_url domain =
        ((catTbl.find? fun c => c.name == "Uncategorized").map Category.id).getD 1) ∧
    (∀ (ruleTbl : List Rule) (catTbl : List Category) (domain : String)
        (r : Rule) (c : Category),
      r ∈ ruleTbl → catTbl.find? (fun c => c.id == r.category_id) = some c →
      r.matches_url domain = true →
      ∃ rb ∈ ruleTbl, rb.matches_url domain = true ∧
        (Categorizer.new ruleTbl catTbl).categorize_url domain = rb.category_id ∧
        ∀ r' ∈ ruleTbl, (catTbl.find? fun c => c.id == r'.category_id).isSome = true →
          r'.matches_url domain = true → r'.priority ≤ rb.priority) := by
  refine ⟨?_, ?_, ?_, ?_⟩
  · intro ruleTbl catTbl app title h
    rw [categorize_app_eq_by]
    exact categorizeBy_no_match h
  · intro ruleTbl catTbl app title r c hr hc hq
    rw [categorize_app_eq_by]
    obtain ⟨rb, hrb, hqb, _, hres, hmax⟩ :=
      categorizeBy_match (q := fun r => r.matches_app app title) hr hc hq
    exact ⟨rb, hrb, hqb, hres, hmax⟩
  · intro ruleTbl catTbl domain h
    rw [categorize_url_eq_by]
    exact categorizeBy_no_match h
  · intro ruleTbl catTbl domain r c hr hc hq
    rw [categorize_url_eq_by]
    obtain ⟨rb, hrb, hqb, _, hres, hmax⟩ :=
      categorizeBy_match (q := fun r => r.matches_url domain) hr hc hq
    exact ⟨rb, hrb, hqb, hres, hmax⟩

theorem C4_witness :
    ((Categorizer.new [] [⟨7, "Uncategorized", 0⟩]).categorize_app "SomeApp" none =
      ((([⟨7, "Uncategorized", 0⟩] : List Category).find? fun c =>
        c.name == "Uncategorized").map Category.id).getD 1) ∧
    ((Categorizer.new [] []).categorize_url "example.com" =
      ((([] : List Category).find? fun c => c.name == "Uncategorized").map
        Category.id).getD 1) ∧
    (∃ rb ∈ [(⟨1, "code", MatchType.app, 7, 10⟩ : Rule)],
      rb.matches_app "Visual Studio Code" none = true ∧
      (Categorizer.new [⟨1, "code", MatchType.app, 7, 10⟩]
        [⟨7, "Coding", 1⟩]).categorize_app "Visual Studio Code" none = rb.category_id ∧
      ∀ r' ∈ [(⟨1, "code", MatchType.app, 7, 10⟩ : Rule)],
        (([⟨7, "Coding", 1⟩] : List Category).find? fun c =>
          c.id == r'.category_id).isSome = true →
        r'.matches_app "Visual Studio Code" none = true → r'.priority ≤ rb.priority) := by
  refine ⟨?_, ?_, ?_⟩
  · exact C4_categorize_total_fallback.1 [] [⟨7, "Uncategorized", 0⟩] "SomeApp" none
      (by intro r hr; cases hr)
  · exact C4_categorize_total_fallback.2.2.1 [] [] "example.com"
      (by intro r hr; cases hr)
  · exact C4_categorize_total_fallback.2.1 [⟨1, "code", MatchType.app, 7, 10⟩]
      [⟨7, "Coding", 1⟩] "Visual Studio Code" none ⟨1, "code", MatchType.app, 7, 10⟩
      ⟨7, "Coding", 1⟩ (by decide) (by decide) (by decide)

/-- **C5**: among applicable rules matching a given input, the rule with the
strictly higher priority determines the category, independent of pattern
specificity.  If `r1` and `r2` both match, `r2.priority < r1.priority`, and
every matching applicable rule is one of the two, categorization returns
`r1`'s category.  The concrete instance: pattern `"editor"` at priority 5
(category 20) and `"fancy editor"` at priority 20 (category 10) on input
`"Fancy Editor Pro"` yield category 10. -/
theorem C5_higher_priority_wins :
    (∀ (ruleTbl : List Rule) (catTbl : List Category) (app : String)
        (title : Option String) (r1 r2 : Rule) (c1 : Category),
      r1 ∈ ruleTbl → catTbl.find? (fun c => c.id == r1.category_id) = some c1 →
      r1.matches_app app title = true → r2.matches_app app title = true →
      r2.priority < r1.priority →
      (∀ r ∈ ruleTbl, (catTbl.find? fun c => c.id == r.category_id).isSome = true →
        r.matches_app app title = true → r = r1 ∨ r = r2) →
      (Categorizer.new ruleTbl catTbl).categorize_app app title = r1.category_id) ∧
    (Categorizer.new
        [⟨1, "editor", MatchType.app, 20, 5⟩, ⟨2, "fancy editor", MatchType.app, 10, 20⟩]
        [⟨10, "Coding", 1⟩, ⟨20, "Entertainment", -1⟩, ⟨1, "Uncategorized", 0⟩]).categorize_app
      "Fancy Editor Pro" none = 10 := by
  refine ⟨?_, by decide⟩
  intro ruleTbl catTbl app title r1 r2 c1 hr1 hc1 hm1 hm2 hp honly
  rw [categorize_app_eq_by]
  obtain ⟨rb, hrb, hqb, hcatb, hres, hmax⟩ :=
    categorizeBy_match (q := fun r => r.matches_app app title) hr1 hc1 hm1
  have hble := hmax r1 hr1 (by rw [hc1]; rfl) hm1
  rcases honly rb hrb hcatb hqb with rfl | rfl
  · exact hres
  · omega

theorem C5_witness :
    (Categorizer.new
        [⟨1, "editor", MatchType.app, 20, 5⟩, ⟨2, "fancy editor", MatchType.app, 10, 20⟩]
        [⟨10, "Coding", 1⟩, ⟨20, "Entertainment", -1⟩, ⟨1, "Uncategorized", 0⟩]).categorize_app
      "Fancy Editor Pro" none =
      (⟨2, "fancy editor", MatchType.app, 10, 20⟩ : Rule).category_id :=
  C5_higher_priority_wins.1
    [⟨1, "editor", MatchType.app, 20, 5⟩, ⟨2, "fancy editor", MatchType.app, 10, 20⟩]
    [⟨10, "Coding", 1⟩, ⟨20, "Entertainment", -1⟩, ⟨1, "Uncategorized", 0⟩]
    "Fancy Editor Pro" none
    ⟨2, "fancy editor", MatchType.app, 10, 20⟩ ⟨1, "editor", MatchType.app, 20, 5⟩
    ⟨10, "Coding", 1⟩ (by decide) (by decide) (by decide) (by decide) (by decide)
    (by decide)

/-! ## Claim C7 -/

/-- Membership in `get_blocked_domains`, unfolded to the raw tables. -/
theorem mem_blocked_domains {rules : List Rule} {cats : List Category} {p : String} :
    p ∈ FocusManager.get_blocked_domains rules cats ↔
      ∃ r ∈ rules, r.match_type = MatchType.domain ∧ r.pattern = p ∧
        ∃ c ∈ cats, c.id = r.category_id ∧ c.productivity < 0 := by
  unfold FocusManager.get_blocked_domains
  rw [List.mem_map]
  constructor
  · rintro ⟨r, hr, rfl⟩
    rw [List.mem_filter, Bool.and_eq_true] at hr
    obtain ⟨hmem, hdom, hany⟩ := hr
    rw [List.any_eq_true] at hany
    obtain ⟨c, hc, hcond⟩ := hany
    rw [Bool.and_eq_true] at hcond
    exact ⟨r, hmem, by simpa using hdom, rfl, c, hc, by simpa using hcond.1,
      by simpa using hcond.2⟩
  · rintro ⟨r, hmem, hdom, rfl, c, hc, hcid, hprod⟩
    refine ⟨r, ?_, rfl⟩
    rw [List.mem_filter, Bool.and_eq_true]
    refine ⟨hmem, by simpa using hdom, ?_⟩
    rw [List.any_eq_true]
    exact ⟨c, hc, by simp [hcid, hprod]⟩

/-- **C7**: `is_domain_blocked` returns `false` whenever no session is
active; when a session is active it returns `true` iff the domain ends with,
or equals after stripping leading `"*."` markers (`trim_start_matches`),
some pattern of a Domain-kind rule whose category has `productivity < 0`.
The final conjuncts run the end-to-end scenario: with a distracting rule for
`"reddit.com"` and a session active, `"reddit.com"` and `"www.reddit.com"`
are blocked and `"github.com"` is not; after `end_session` both become
unblocked. -/
theorem C7_is_domain_blocked :
    (∀ (db : Db) (now : Int) (domain : String),
      FocusSession.find_active db.sessions = none →
      FocusManager.is_domain_blocked db now domain = false) ∧
    (∀ (db : Db) (now : Int) (domain : String) (s : FocusSession),
      FocusSession.find_active db.sessions = some s →
      (FocusManager.is_domain_blocked db now domain = true ↔
        ∃ r ∈ db.rules, r.match_type = MatchType.domain ∧
          (∃ c ∈ db.categories, c.id = r.category_id ∧ c.productivity < 0) ∧
          (r.pattern.data.isSuffixOf domain.data = true ∨
            domain.data = trimStarDot r.pattern.data))) ∧
    (FocusManager.is_domain_blocked
        ⟨[⟨some 0, 10, none, false, 600, 0⟩], 1,
          [⟨1, "reddit.com", MatchType.domain, 5, 10⟩], [⟨5, "Entertainment", -1⟩], []⟩
        100 "reddit.com" = true ∧
     FocusManager.is_domain_blocked
        ⟨[⟨some 0, 10, none, false, 600, 0⟩], 1,
          [⟨1, "reddit.com", MatchType.domain, 5, 10⟩], [⟨5, "Entertainment", -1⟩], []⟩
        100 "www.reddit.com" = true ∧
     FocusManager.is_domain_blocked
        ⟨[⟨some 0, 10, none, false, 600, 0⟩], 1,
          [⟨1, "reddit.com", MatchType.domain, 5, 10⟩], [⟨5, "Entertainment", -1⟩], []⟩
        100 "github.com" = false) ∧
    (FocusManager.end_session
        ⟨[⟨some 0, 10, none, false, 600, 0⟩], 1,
          [⟨1, "reddit.com", MatchType.domain, 5, 10⟩], [⟨5, "Entertainment", -1⟩], []⟩
        500 =
      some (some ⟨some 0, 10, some 500, false, 600, 0⟩,
        ⟨[⟨some 0, 10, some 500, false, 600, 0⟩], 1,
          [⟨1, "reddit.com", MatchType.domain, 5, 10⟩], [⟨5, "Entertainment", -1⟩], []⟩) ∧
     FocusManager.is_domain_blocked
        ⟨[⟨some 0, 10, some 500, false, 600, 0⟩], 1,
          [⟨1, "reddit.com", MatchType.domain, 5, 10⟩], [⟨5, "Entertainment", -1⟩], []⟩
        600 "reddit.com" = false ∧
     FocusManager.is_domain_blocked
        ⟨[⟨some 0, 10, some 500, false, 600, 0⟩], 1,
          [⟨1, "reddit.com", MatchType.domain, 5, 10⟩], [⟨5, "Entertainment", -1⟩], []⟩
        600 "www.reddit.com" = false) := by
  refine ⟨?_, ?_, by decide, by decide⟩
  · intro db now domain hfind
    unfold FocusManager.is_domain_blocked FocusManager.get_state
    rw [hfind]
    rfl
  · intro db now domain s hfind
    unfold FocusManager.is_domain_blocked FocusManager.get_state
    rw [hfind]
    show (FocusManager.get_blocked_domains db.rules db.categories).any _ = true ↔ _
    rw [List.any_eq_true]
    constructor
    · rintro ⟨p, hp, hpred⟩
      obtain ⟨r, hmem, hdom, rfl, c, hc, hcid, hprod⟩ := mem_blocked_domains.mp hp
      rw [Bool.or_eq_true] at hpred
      refine ⟨r, hmem, hdom, ⟨c, hc, hcid, hprod⟩, ?_⟩
      rcases hpred with h | h
      · exact Or.inl h
      · exact Or.inr (by simpa using h)
    · rintro ⟨r, hmem, hdom, ⟨c, hc, hcid, hprod⟩, hsfx⟩
      refine ⟨r.pattern, mem_blocked_domains.mpr ⟨r, hmem, hdom, rfl, c, hc, hcid, hprod⟩, ?_⟩
      rw [Bool.or_eq_true]
      rcases hsfx with h | h
      · exact Or.inl h
      · exact Or.inr (by simpa using h)

theorem C7_witness :
    FocusManager.is_domain_blocked
      ⟨[], 0, [⟨1, "reddit.com", MatchType.domain, 5, 10⟩],
        [⟨5, "Entertainment", -1⟩], []⟩ 100 "reddit.com" = false :=
  C7_is_domain_blocked.1
    ⟨[], 0, [⟨1, "reddit.com", MatchType.domain, 5, 10⟩],
      [⟨5, "Entertainment", -1⟩], []⟩ 100 "reddit.com" rfl

end Foxus
